import Mathlib

/-!
Verification development for the lab-1 energy-analysis repository
(`lab1/main.py` and `lab1/lab1_app.py`).

The scripts operate on pandas DataFrames of hourly energy records.  We give a
shallow embedding:

* a numeric cell is a `PF` — a rational number extended with `nan` and the two
  infinities, capturing the IEEE special-value behaviour of the float columns
  (NaN propagation, `x / 0`, clipping of infinities, `fillna`); exact rational
  arithmetic stands in for binary floating point, which is faithful for every
  property considered here (sign, zero and NaN guards, clamping, rounding to a
  fixed number of decimals);
* a cell is a `Cell` — a numeric `PF`, a string (day names) or a boolean
  (the weekend flag); a parsed timestamp is stored as a numeric cell holding
  hours since the epoch, and a missing value (NaN/NaT) is `Cell.num PF.nan`;
* a table is a `Table` — an ordered list of column names together with an
  ordered list of rows; a row is a total function from column names to cells,
  meaningful on the table's columns; accessing an absent column is the
  KeyError failure of pandas, embedded as `Except` with the list of offending
  column names as the error value.
-/

namespace EnergyLab

/-- A pandas float cell value: a rational, `nan`, or an infinity. -/
inductive PF where
  | nan : PF
  | pinf : PF
  | ninf : PF
  | fin (q : ℚ) : PF
deriving DecidableEq, Repr

namespace PF

/-- IEEE addition on extended values (signed zeros are collapsed to `0`,
which is invisible to every property below). -/
def add : PF → PF → PF
  | nan, _ => nan
  | _, nan => nan
  | pinf, ninf => nan
  | ninf, pinf => nan
  | pinf, _ => pinf
  | _, pinf => pinf
  | ninf, _ => ninf
  | _, ninf => ninf
  | fin a, fin b => fin (a + b)

/-- IEEE negation. -/
def neg : PF → PF
  | nan => nan
  | pinf => ninf
  | ninf => pinf
  | fin a => fin (-a)

/-- IEEE subtraction. -/
def sub (x y : PF) : PF := add x (neg y)

/-- IEEE multiplication. -/
def mul : PF → PF → PF
  | nan, _ => nan
  | _, nan => nan
  | pinf, pinf => pinf
  | pinf, ninf => ninf
  | ninf, pinf => ninf
  | ninf, ninf => pinf
  | pinf, fin b => if b = 0 then nan else if 0 < b then pinf else ninf
  | fin a, pinf => if a = 0 then nan else if 0 < a then pinf else ninf
  | ninf, fin b => if b = 0 then nan else if 0 < b then ninf else pinf
  | fin a, ninf => if a = 0 then nan else if 0 < a then ninf else pinf
  | fin a, fin b => fin (a * b)

/-- IEEE division: `p / 0` is `±∞` for `p ≠ 0` and `nan` for `0 / 0`. -/
def div : PF → PF → PF
  | nan, _ => nan
  | _, nan => nan
  | pinf, pinf => nan
  | pinf, ninf => nan
  | ninf, pinf => nan
  | ninf, ninf => nan
  | pinf, fin b => if 0 ≤ b then pinf else ninf
  | ninf, fin b => if 0 ≤ b then ninf else pinf
  | fin _, pinf => fin 0
  | fin _, ninf => fin 0
  | fin a, fin b =>
      if b = 0 then (if a = 0 then nan else if 0 < a then pinf else ninf)
      else fin (a / b)

/-- Absolute value. -/
def abs : PF → PF
  | nan => nan
  | pinf => pinf
  | ninf => pinf
  | fin a => fin |a|

/-- `Series.clip(lo, hi)`: NaN is left untouched, infinities are clamped to
the bounds, finite values are clamped into `[lo, hi]`. -/
def clip (lo hi : ℚ) : PF → PF
  | nan => nan
  | pinf => fin hi
  | ninf => fin lo
  | fin a => fin (min hi (max lo a))

/-- `Series.fillna(v)`: replaces NaN only. -/
def fillna (v : ℚ) : PF → PF
  | nan => fin v
  | x => x

/-- Round-half-to-even to an integer (the tie rule of `numpy.round`). -/
def rhe (q : ℚ) : ℤ :=
  let f := ⌊q⌋
  let r := q - f
  if r < 1/2 then f
  else if 1/2 < r then f + 1
  else if f % 2 = 0 then f else f + 1

/-- `Series.round(d)`: round to `d` decimal places, half to even; NaN and
infinities pass through unchanged. -/
def roundTo (d : ℕ) : PF → PF
  | fin q => fin ((rhe (q * (10 : ℚ) ^ d) : ℚ) / (10 : ℚ) ^ d)
  | x => x

end PF

/-- A cell of a DataFrame. -/
inductive Cell where
  | num (x : PF) : Cell
  | str (s : String) : Cell
  | boolean (b : Bool) : Cell
deriving DecidableEq, Repr

/-- The NaN cell (also stands for NaT in the parsed date column). -/
def cellNaN : Cell := Cell.num PF.nan

/-- Lift a unary `PF` operation to cells; non-numeric cells yield NaN, as
pandas numeric operations do on non-numeric data. -/
def cellMap (f : PF → PF) : Cell → Cell
  | Cell.num x => Cell.num (f x)
  | _ => cellNaN

/-- Lift a binary `PF` operation to cells. -/
def cellZip (f : PF → PF → PF) : Cell → Cell → Cell
  | Cell.num x, Cell.num y => Cell.num (f x y)
  | _, _ => cellNaN

def cellDiv : Cell → Cell → Cell := cellZip PF.div
def cellSub : Cell → Cell → Cell := cellZip PF.sub
def cellMul100 : Cell → Cell := cellMap (fun x => PF.mul x (PF.fin 100))
def cellFillna0 : Cell → Cell := cellMap (PF.fillna 0)
def cellClip (lo hi : ℚ) : Cell → Cell := cellMap (PF.clip lo hi)
def cellRound (d : ℕ) : Cell → Cell := cellMap (PF.roundTo d)
def cellAbs : Cell → Cell := cellMap PF.abs

/-- `df[[...]].sum(axis=1)` on one row: sum the listed cells, skipping NaN
(pandas `sum` treats NaN as absent, and an all-NaN selection sums to `0`). -/
def rowSumSkipNa (cells : List Cell) : Cell :=
  Cell.num (cells.foldl
    (fun a c => match c with
      | Cell.num PF.nan => a
      | Cell.num x => PF.add a x
      | _ => a)
    (PF.fin 0))

/-! ### Calendar accessors

A parsed timestamp is a numeric cell holding (rational) hours since
1970-01-01T00:00.  The `dt.*` accessors below convert it the way pandas does;
`NaT` (a NaN date cell) maps to NaN.  The year/month/day conversion is the
standard civil-from-days algorithm. -/

/-- Days-since-epoch to (year, month, day) in the proleptic Gregorian
calendar. -/
def civilOfDays (z0 : ℤ) : ℤ × ℤ × ℤ :=
  let z := z0 + 719468
  let era := z.ediv 146097
  let doe := z - era * 146097
  let yoe := (doe - doe.ediv 1460 + doe.ediv 36524 - doe.ediv 146096).ediv 365
  let y := yoe + era * 400
  let doy := doe - (365 * yoe + yoe.ediv 4 - yoe.ediv 100)
  let mp := (5 * doy + 2).ediv 153
  let d := doy - (153 * mp + 2).ediv 5 + 1
  let m := mp + (if mp < 10 then 3 else -9)
  (y + (if m ≤ 2 then 1 else 0), m, d)

/-- Days since the epoch of a timestamp in hours. -/
def tsDays (q : ℚ) : ℤ := ⌊q / 24⌋

/-- Weekday index with Monday = 0 (1970-01-01 was a Thursday). -/
def tsDow (q : ℚ) : ℤ := (tsDays q + 3).emod 7

/-- English weekday name, as produced by `dt.day_name()`. -/
def dayNameOf (d : ℤ) : String :=
  if d = 0 then "Monday"
  else if d = 1 then "Tuesday"
  else if d = 2 then "Wednesday"
  else if d = 3 then "Thursday"
  else if d = 4 then "Friday"
  else if d = 5 then "Saturday"
  else "Sunday"

def cellYear : Cell → Cell
  | Cell.num (PF.fin q) => Cell.num (PF.fin ((civilOfDays (tsDays q)).1 : ℚ))
  | _ => cellNaN

def cellMonth : Cell → Cell
  | Cell.num (PF.fin q) => Cell.num (PF.fin ((civilOfDays (tsDays q)).2.1 : ℚ))
  | _ => cellNaN

def cellDay : Cell → Cell
  | Cell.num (PF.fin q) => Cell.num (PF.fin ((civilOfDays (tsDays q)).2.2 : ℚ))
  | _ => cellNaN

def cellHour : Cell → Cell
  | Cell.num (PF.fin q) => Cell.num (PF.fin ((⌊q⌋ - 24 * tsDays q : ℤ) : ℚ))
  | _ => cellNaN

def cellDayName : Cell → Cell
  | Cell.num (PF.fin q) => Cell.str (dayNameOf (tsDow q))
  | _ => cellNaN

def cellWeekend : Cell → Cell
  | Cell.num (PF.fin q) => Cell.boolean (decide (5 ≤ tsDow q))
  | _ => cellNaN

def cellQuarter : Cell → Cell
  | Cell.num (PF.fin q) =>
      Cell.num (PF.fin ((((civilOfDays (tsDays q)).2.1 - 1).ediv 3 + 1 : ℤ) : ℚ))
  | _ => cellNaN

/-! ### Columns and tables -/

/-- Column names of the raw CSV (first block) and of the derived features
(second and third block: `engineer_features` in `main.py` and `load_data`
in `lab1_app.py`). -/
inductive Col where
  | date_ | consum | productie | carbune | hidro | hidrocarburi | nuclear
  | eolian | fotovolt | biomasa | sold
  | an | luna | ziua | ora | ziua_saptamanii | weekend | trimestru
  | consum_acoperit | total_regenerabila | procent_regenerabila | sold_absolut
  | total_neregenerabila | sold_energetic | eficienta_retea
deriving DecidableEq, Fintype, Repr

/-- A row: a total assignment of cells, meaningful on the table's columns. -/
abbrev Row := Col → Cell

/-- Look a column up in an association list. -/
def lookupCol : List (Col × Cell) → Col → Option Cell
  | [], _ => none
  | (c', v) :: rest, c => if c' = c then some v else lookupCol rest c

/-- Build a row from an association list; unlisted columns hold NaN. -/
def mkRow (l : List (Col × Cell)) : Row := fun c =>
  (lookupCol l c).getD cellNaN

/-- A DataFrame: ordered column names and ordered rows. -/
structure Table where
  cols : List Col
  rows : List Row

/-- Point update of a row at one column. -/
def updRow (r : Row) (c : Col) (v : Cell) : Row :=
  fun x => if x = c then v else r x

/-- `df[c]`: the column as a list of cells, or a KeyError naming `c`. -/
def Table.getColE (t : Table) (c : Col) : Except (List Col) (List Cell) :=
  if c ∈ t.cols then Except.ok (t.rows.map (fun r => r c))
  else Except.error [c]

/-- `df[[c₁, …, cₙ]]` viewed row-wise: the selected cells of every row, or a
KeyError naming all the requested columns that are absent. -/
def Table.subColsE (t : Table) (cs : List Col) :
    Except (List Col) (List (List Cell)) :=
  if cs.filter (fun c => c ∉ t.cols) = [] then
    Except.ok (t.rows.map (fun r => cs.map r))
  else Except.error (cs.filter (fun c => c ∉ t.cols))

/-- `df[c] = vals`: overwrite the column if present, append it otherwise. -/
def Table.setCol (t : Table) (c : Col) (vals : List Cell) : Table :=
  { cols := if c ∈ t.cols then t.cols else t.cols ++ [c]
    rows := (t.rows.zip vals).map (fun rv => updRow rv.1 c rv.2) }

/-! ### The feature pipelines

`addCalendar` embeds the calendar block that appears verbatim in both
`engineer_features` (`lab1/main.py`, lines 58–64) and `load_data`
(`lab1/lab1_app.py`, lines 67–73).  `addEnergyMain` embeds lines 67–70 of
`main.py`; `addEnergyApp` embeds lines 76–80 of `lab1_app.py`. -/

/-- One calendar line, `df[c] = df["date"].dt.f`. -/
def assignFromDate (c : EnergyLab.Col) (f : Cell → Cell) (df : EnergyLab.Table) :
    Except (List EnergyLab.Col) EnergyLab.Table := do
  let v ← df.getColE .date_
  return df.setCol c (v.map f)

/-- The seven calendar assignments, each reading `df["date"]` afresh. -/
def addCalendar (df0 : EnergyLab.Table) :
    Except (List EnergyLab.Col) EnergyLab.Table := do
  let df1 ← assignFromDate .an cellYear df0
  let df2 ← assignFromDate .luna cellMonth df1
  let df3 ← assignFromDate .ziua cellDay df2
  let df4 ← assignFromDate .ora cellHour df3
  let df5 ← assignFromDate .ziua_saptamanii cellDayName df4
  let df6 ← assignFromDate .weekend cellWeekend df5
  let df7 ← assignFromDate .trimestru cellQuarter df6
  return df7

/-- The energy block of `engineer_features` (`lab1/main.py`, lines 67–70):
`consum_acoperit`, `total_regenerabila`, `procent_regenerabila` (rounded to
2 decimals, no NaN guard), `sold_absolut`. -/
def addEnergyMain (df0 : EnergyLab.Table) :
    Except (List EnergyLab.Col) EnergyLab.Table := do
  let pr ← df0.getColE .productie
  let co ← df0.getColE .consum
  let df1 := df0.setCol .consum_acoperit
    ((pr.zipWith cellDiv co).map (cellRound 3))
  let ren ← df1.subColsE [.hidro, .fotovolt, .eolian, .biomasa]
  let df2 := df1.setCol .total_regenerabila (ren.map rowSumSkipNa)
  let tr ← df2.getColE .total_regenerabila
  let pr ← df2.getColE .productie
  let df3 := df2.setCol .procent_regenerabila
    (((tr.zipWith cellDiv pr).map cellMul100).map (cellRound 2))
  let so ← df3.getColE .sold
  let df4 := df3.setCol .sold_absolut (so.map cellAbs)
  return df4

/-- The energy block of `load_data` (`lab1/lab1_app.py`, lines 76–80):
`total_regenerabila`, `total_neregenerabila`, `procent_regenerabila`
(`fillna(0)`, no rounding), `sold_energetic`, `eficienta_retea`
(clipped to `[0, 200]`). -/
def addEnergyApp (df0 : EnergyLab.Table) :
    Except (List EnergyLab.Col) EnergyLab.Table := do
  let ren ← df0.subColsE [.hidro, .fotovolt, .eolian, .biomasa]
  let df1 := df0.setCol .total_regenerabila (ren.map rowSumSkipNa)
  let nrn ← df1.subColsE [.carbune, .hidrocarburi, .nuclear]
  let df2 := df1.setCol .total_neregenerabila (nrn.map rowSumSkipNa)
  let tr ← df2.getColE .total_regenerabila
  let pr ← df2.getColE .productie
  let df3 := df2.setCol .procent_regenerabila
    (((tr.zipWith cellDiv pr).map cellMul100).map cellFillna0)
  let pr ← df3.getColE .productie
  let co ← df3.getColE .consum
  let df4 := df3.setCol .sold_energetic (pr.zipWith cellSub co)
  let pr ← df4.getColE .productie
  let co ← df4.getColE .consum
  let df5 := df4.setCol .eficienta_retea
    (((pr.zipWith cellDiv co).map cellMul100).map (cellClip 0 200))
  return df5

/-- `engineer_features` of `lab1/main.py` (lines 53–72): calendar fields,
then the script's energy fields. -/
def engineer_features (df : EnergyLab.Table) :
    Except (List EnergyLab.Col) EnergyLab.Table := do
  addEnergyMain (← addCalendar df)

/-- The feature-engineering part of `load_data` in `lab1/lab1_app.py`
(lines 67–80), after the CSV has been read: calendar fields, then the
dashboard's energy fields.  An error is the KeyError that the enclosing
`try` of `load_data` reports via `st.error` before returning `None` (no
partial result). -/
def load_data_features (df : EnergyLab.Table) :
    Except (List EnergyLab.Col) EnergyLab.Table := do
  addEnergyApp (← addCalendar df)

/-! ### Row-level normal forms of the pipelines -/

/-- Per-row effect of `addCalendar`. -/
def calRow (r : EnergyLab.Row) : EnergyLab.Row :=
  let r1 := updRow r .an (cellYear (r .date_))
  let r2 := updRow r1 .luna (cellMonth (r1 .date_))
  let r3 := updRow r2 .ziua (cellDay (r2 .date_))
  let r4 := updRow r3 .ora (cellHour (r3 .date_))
  let r5 := updRow r4 .ziua_saptamanii (cellDayName (r4 .date_))
  let r6 := updRow r5 .weekend (cellWeekend (r5 .date_))
  updRow r6 .trimestru (cellQuarter (r6 .date_))

/-- Per-row effect of `addEnergyMain`. -/
def energyRowMain (r : EnergyLab.Row) : EnergyLab.Row :=
  let r1 := updRow r .consum_acoperit
    (cellRound 3 (cellDiv (r .productie) (r .consum)))
  let r2 := updRow r1 .total_regenerabila
    (rowSumSkipNa [r1 .hidro, r1 .fotovolt, r1 .eolian, r1 .biomasa])
  let r3 := updRow r2 .procent_regenerabila
    (cellRound 2 (cellMul100 (cellDiv (r2 .total_regenerabila) (r2 .productie))))
  updRow r3 .sold_absolut (cellAbs (r3 .sold))

/-- Per-row effect of `addEnergyApp`. -/
def energyRowApp (r : EnergyLab.Row) : EnergyLab.Row :=
  let r1 := updRow r .total_regenerabila
    (rowSumSkipNa [r .hidro, r .fotovolt, r .eolian, r .biomasa])
  let r2 := updRow r1 .total_neregenerabila
    (rowSumSkipNa [r1 .carbune, r1 .hidrocarburi, r1 .nuclear])
  let r3 := updRow r2 .procent_regenerabila
    (cellFillna0 (cellMul100 (cellDiv (r2 .total_regenerabila) (r2 .productie))))
  let r4 := updRow r3 .sold_energetic (cellSub (r3 .productie) (r3 .consum))
  updRow r4 .eficienta_retea
    (cellClip 0 200 (cellMul100 (cellDiv (r4 .productie) (r4 .consum))))

/-- The calendar columns, in assignment order. -/
def calCols : List Col :=
  [.an, .luna, .ziua, .ora, .ziua_saptamanii, .weekend, .trimestru]

/-- The energy columns added by `engineer_features` (`main.py`). -/
def energyColsMain : List Col :=
  [.consum_acoperit, .total_regenerabila, .procent_regenerabila, .sold_absolut]

/-- The energy columns added by `load_data` (`lab1_app.py`). -/
def energyColsApp : List Col :=
  [.total_regenerabila, .total_neregenerabila, .procent_regenerabila,
   .sold_energetic, .eficienta_retea]

/-- The columns `engineer_features` needs besides the parsed `date`. -/
def requiredMain : List Col :=
  [.productie, .consum, .hidro, .fotovolt, .eolian, .biomasa, .sold]

/-- The columns the dashboard's feature block needs besides the parsed
`date`: every source-production field, production and consumption. -/
def requiredApp : List Col :=
  [.hidro, .fotovolt, .eolian, .biomasa, .carbune, .hidrocarburi, .nuclear,
   .productie, .consum]

/-! ### The cleaning stage of `main.py` -/

/-- `df.isnull().sum().sum()`: how many cells of the table are missing. -/
def Table.countMissing (t : Table) : ℕ :=
  t.rows.foldl
    (fun a r => a + (t.cols.filter (fun c => r c = cellNaN)).length) 0

/-- `select_dtypes(include=[np.number])` on the CSV-loaded table: every raw
column is numeric except the parsed `date`. -/
def numericColsOf (t : Table) : List Col := t.cols.filter (fun c => c ≠ .date_)

/-- Latest valid (non-NaN) cell strictly before position `j`. -/
def findPrev (l : List Cell) (j : ℕ) : Option (ℕ × Cell) :=
  ((List.range j).filterMap
    (fun i => if l.getD i cellNaN ≠ cellNaN then some (i, l.getD i cellNaN)
              else none)).getLast?

/-- Earliest valid (non-NaN) cell strictly after position `j`. -/
def findNext (l : List Cell) (j : ℕ) : Option (ℕ × Cell) :=
  ((List.range l.length).filterMap
    (fun k => if j < k ∧ l.getD k cellNaN ≠ cellNaN then
                some (k, l.getD k cellNaN)
              else none)).head?

/-- Positional linear interpolation between two valid cells. -/
def lerpCell (vi vk : Cell) (r : ℚ) : Cell :=
  match vi, vk with
  | Cell.num a, Cell.num b => Cell.num (PF.add a (PF.mul (PF.sub b a) (PF.fin r)))
  | _, _ => cellNaN

/-- Replacement value for a NaN at position `j`, following
`Series.interpolate()` (method `linear`, default `limit_direction`):
linear between the surrounding valid values, the last valid value is padded
forward past the end, and a NaN with no valid predecessor stays NaN. -/
def fillAt (l : List Cell) (j : ℕ) : Cell :=
  match findPrev l j, findNext l j with
  | some (i, vi), some (k, vk) =>
      lerpCell vi vk (((j : ℚ) - (i : ℚ)) / ((k : ℚ) - (i : ℚ)))
  | some (_, vi), none => vi
  | none, _ => cellNaN

/-- Walk the column, replacing each NaN via `fillAt` against the original
column. -/
def interpGo (orig : List Cell) : ℕ → List Cell → List Cell
  | _, [] => []
  | j, x :: rest =>
      (if x = cellNaN then fillAt orig j else x) :: interpGo orig (j + 1) rest

/-- `Series.interpolate()` on one column. -/
def interpCells (l : List Cell) : List Cell := interpGo l 0 l

/-- Interpolate one column of the table in place. -/
def Table.interpCol (t : Table) (c : Col) : Table :=
  t.setCol c (interpCells (t.rows.map (fun r => r c)))

/-- `df[numeric_cols] = df[numeric_cols].interpolate()`. -/
def Table.interpNumeric (t : Table) : Table :=
  (numericColsOf t).foldl Table.interpCol t

/-- Rows equal on every listed column (pandas `duplicated` treats equal NaNs
as duplicates, as does `Cell` equality). -/
def rowEqOn (cols : List Col) (r1 r2 : Row) : Bool :=
  cols.all (fun c => decide (r1 c = r2 c))

/-- `drop_duplicates()` (keep the first occurrence). -/
def dropDupsAux (cols : List Col) : List Row → List Row → List Row
  | _, [] => []
  | seen, r :: rest =>
      if seen.any (fun s => rowEqOn cols r s) then dropDupsAux cols seen rest
      else r :: dropDupsAux cols (r :: seen) rest

/-- `df.drop_duplicates()`. -/
def Table.dropDups (t : Table) : Table :=
  { cols := t.cols, rows := dropDupsAux t.cols [] t.rows }

/-- `df.duplicated().sum()`. -/
def Table.dupCount (t : Table) : ℕ :=
  t.rows.length - (dropDupsAux t.cols [] t.rows).length

/-- `clean_data` of `lab1/main.py` (lines 34–51): first interpolate the
numeric columns (only when some value is missing), then drop duplicate rows
(only when some row is duplicated). -/
def clean_data (df : Table) : Table :=
  let df1 := if 0 < df.countMissing then df.interpNumeric else df
  if 0 < df1.dupCount then df1.dropDups else df1

/-- Modelled from the spec: §4.1 steps 1–2 prescribe an order that is
missing from the source — "1. Deduplicate rows on full-row equality.
2. Interpolate missing numeric values": deduplication before
interpolation. -/
def clean_data_dedupFirst (df : Table) : Table :=
  (df.dropDups).interpNumeric

/-- Timestamp sort key of a row (`sort_values('date')`). -/
def dateKey (r : Row) : ℚ :=
  match r .date_ with
  | Cell.num (PF.fin q) => q
  | _ => 0

/-- Insert a row into a list sorted by ascending timestamp. -/
def insertByDate (r : Row) : List Row → List Row
  | [] => [r]
  | s :: rest =>
      if dateKey s < dateKey r then s :: insertByDate r rest
      else r :: s :: rest

/-- Sort rows by ascending timestamp. -/
def sortRowsByDate (l : List Row) : List Row := l.foldr insertByDate []

/-- Modelled from the spec: §4.1 step 2 and §9 mandate a step that is
missing from the source — "sort by `timestamp` before interpolation" — the
cleaning stage run on the timestamp-sorted table. -/
def clean_data_sorted (df : Table) : Table :=
  clean_data { cols := df.cols, rows := sortRowsByDate df.rows }

/-! ### Basic lemmas about the embedding -/

lemma bind_ok {ε α β : Type} (a : α) (f : α → Except ε β) :
    (Except.ok a >>= f) = f a := rfl

lemma bind_err {ε α β : Type} (e : ε) (f : α → Except ε β) :
    ((Except.error e : Except ε α) >>= f) = Except.error e := rfl

lemma getColE_pos (t : Table) (c : Col) (h : c ∈ t.cols) :
    t.getColE c = Except.ok (t.rows.map (fun r => r c)) := by
  simp [Table.getColE, h]

lemma getColE_neg (t : Table) (c : Col) (h : c ∉ t.cols) :
    t.getColE c = Except.error [c] := by
  simp [Table.getColE, h]

lemma subColsE_pos (t : Table) (cs : List Col) (h : ∀ c ∈ cs, c ∈ t.cols) :
    t.subColsE cs = Except.ok (t.rows.map (fun r => cs.map r)) := by
  have hf : cs.filter (fun c => c ∉ t.cols) = [] := by
    rw [List.filter_eq_nil_iff]
    intro c hc
    simpa using h c hc
  unfold Table.subColsE
  rw [if_pos hf]

lemma subColsE_pos4 (t : Table) (a b c d : Col) (ha : a ∈ t.cols)
    (hb : b ∈ t.cols) (hc : c ∈ t.cols) (hd : d ∈ t.cols) :
    t.subColsE [a, b, c, d] =
      Except.ok (t.rows.map (fun r => [a, b, c, d].map r)) := by
  refine subColsE_pos t _ ?_
  intro x hx
  simp only [List.mem_cons, List.not_mem_nil, or_false] at hx
  rcases hx with rfl | rfl | rfl | rfl
  · exact ha
  · exact hb
  · exact hc
  · exact hd

lemma subColsE_pos3 (t : Table) (a b c : Col) (ha : a ∈ t.cols)
    (hb : b ∈ t.cols) (hc : c ∈ t.cols) :
    t.subColsE [a, b, c] =
      Except.ok (t.rows.map (fun r => [a, b, c].map r)) := by
  refine subColsE_pos t _ ?_
  intro x hx
  simp only [List.mem_cons, List.not_mem_nil, or_false] at hx
  rcases hx with rfl | rfl | rfl
  · exact ha
  · exact hb
  · exact hc

lemma subColsE_neg (t : Table) (cs : List Col)
    (h : cs.filter (fun c => c ∉ t.cols) ≠ []) :
    t.subColsE cs = Except.error (cs.filter (fun c => c ∉ t.cols)) := by
  unfold Table.subColsE
  rw [if_neg h]

lemma setCol_cols_of_not_mem (t : Table) (c : Col) (v : List Cell)
    (h : c ∉ t.cols) : (t.setCol c v).cols = t.cols ++ [c] := by
  simp [Table.setCol, h]

lemma setCol_cols_of_mem (t : Table) (c : Col) (v : List Cell)
    (h : c ∈ t.cols) : (t.setCol c v).cols = t.cols := by
  simp [Table.setCol, h]

lemma mem_setCol_of_mem {t : Table} {c' : Col} (c : Col) (v : List Cell)
    (h : c' ∈ t.cols) : c' ∈ (t.setCol c v).cols := by
  by_cases hc : c ∈ t.cols
  · simpa [Table.setCol, hc] using h
  · simp [Table.setCol, hc, List.mem_append]
    exact Or.inl h

lemma mem_setCol_self (t : Table) (c : Col) (v : List Cell) :
    c ∈ (t.setCol c v).cols := by
  by_cases hc : c ∈ t.cols
  · simp [Table.setCol, hc]
  · simp [Table.setCol, hc, List.mem_append]

lemma mem_setCol_iff (t : Table) (c c' : Col) (v : List Cell) :
    c' ∈ (t.setCol c v).cols ↔ c' ∈ t.cols ∨ c' = c := by
  by_cases hc : c ∈ t.cols
  · simp only [Table.setCol, if_pos hc]
    constructor
    · exact Or.inl
    · rintro (h | rfl)
      · exact h
      · exact hc
  · simp [Table.setCol, hc, List.mem_append]

lemma list_zip_map_self {α β γ : Type} (l : List α) (g : α → β)
    (h : α × β → γ) :
    ((l.zip (l.map g)).map h) = l.map (fun x => h (x, g x)) := by
  induction l with
  | nil => rfl
  | cons a t ih => simp [ih]

lemma list_zipWith_map_self {α β γ δ : Type} (k : β → γ → δ) (l : List α)
    (f : α → β) (g : α → γ) :
    List.zipWith k (l.map f) (l.map g) = l.map (fun x => k (f x) (g x)) := by
  induction l with
  | nil => rfl
  | cons a t ih => simp [ih]

lemma list_map_zip_map {α β γ δ : Type} (l : List α) (f : α → β) (g : α → γ)
    (h : β × γ → δ) :
    ((l.map f).zip (l.map g)).map h = l.map (fun x => h (f x, g x)) := by
  induction l with
  | nil => rfl
  | cons a t ih => simp [ih]

/-- Setting a fresh column whose values are computed row-wise from the
current table appends the column and extends every row. -/
lemma setCol_fresh_map (t : Table) (c : Col) (g : Row → Cell)
    (hc : c ∉ t.cols) :
    t.setCol c (t.rows.map g) =
      { cols := t.cols ++ [c]
        rows := t.rows.map (fun r => updRow r c (g r)) } := by
  simp only [Table.setCol, if_neg hc]
  exact congrArg (fun rs => Table.mk (t.cols ++ [c]) rs)
    (list_zip_map_self t.rows g _)

/-- Variant of `setCol_fresh_map` for a table whose rows are already in
mapped normal form. -/
lemma setCol_fresh_map2 (C : List Col) (l : List Row) (F : Row → Row)
    (c : Col) (g : Row → Cell) (hc : c ∉ C) :
    (Table.mk C (l.map F)).setCol c (l.map g) =
      Table.mk (C ++ [c]) (l.map (fun r => updRow (F r) c (g r))) := by
  simp only [Table.setCol, if_neg hc]
  exact congrArg (fun rs => Table.mk (C ++ [c]) rs)
    (list_map_zip_map l F g _)

/-! ### Normal forms of the pipelines -/

lemma assignFromDate_eq (c : Col) (f : Cell → Cell) (df : Table)
    (hd : Col.date_ ∈ df.cols) :
    assignFromDate c f df =
      Except.ok (df.setCol c ((df.rows.map (fun r => r .date_)).map f)) := by
  unfold assignFromDate
  rw [getColE_pos _ _ hd, bind_ok]
  rfl

/-- With the date column present and the calendar columns fresh,
`addCalendar` appends the calendar columns and maps `calRow` over the
rows. -/
lemma addCalendar_master (df : Table) (hd : Col.date_ ∈ df.cols)
    (hf : ∀ c ∈ calCols, c ∉ df.cols) :
    addCalendar df =
      Except.ok { cols := df.cols ++ calCols, rows := df.rows.map calRow } := by
  have h1 : Col.an ∉ df.cols := hf _ (by decide)
  have h2 : Col.luna ∉ df.cols := hf _ (by decide)
  have h3 : Col.ziua ∉ df.cols := hf _ (by decide)
  have h4 : Col.ora ∉ df.cols := hf _ (by decide)
  have h5 : Col.ziua_saptamanii ∉ df.cols := hf _ (by decide)
  have h6 : Col.weekend ∉ df.cols := hf _ (by decide)
  have h7 : Col.trimestru ∉ df.cols := hf _ (by decide)
  simp only [addCalendar, assignFromDate_eq, bind_ok, List.map_map,
    setCol_fresh_map, setCol_fresh_map2, mem_setCol_iff, List.mem_append,
    List.mem_singleton,
    List.mem_cons, List.not_mem_nil, hd, h1, h2, h3, h4, h5, h6, h7,
    List.append_assoc, List.cons_append, List.singleton_append,
    List.nil_append, calCols, true_or, or_true, or_false, false_or,
    not_false_iff, not_true, reduceCtorEq, ite_true, ite_false]
  rfl

/-- Per-row effect of the whole dashboard feature block. -/
def appRow (r : Row) : Row := energyRowApp (calRow r)

/-- Per-row effect of the whole script feature block. -/
def mainRow (r : Row) : Row := energyRowMain (calRow r)

/-- All columns added by the dashboard feature block, in order. -/
def derivedApp : List Col := calCols ++ energyColsApp

/-- All columns added by the script feature block, in order. -/
def derivedMain : List Col := calCols ++ energyColsMain

/-- With the required columns present and the new columns fresh,
`addEnergyApp` appends its five columns and maps `energyRowApp`. -/
lemma addEnergyApp_master (t : Table)
    (hreq : ∀ c ∈ requiredApp, c ∈ t.cols)
    (hf : ∀ c ∈ energyColsApp, c ∉ t.cols) :
    addEnergyApp t =
      Except.ok { cols := t.cols ++ energyColsApp
                  rows := t.rows.map energyRowApp } := by
  have m1 : Col.hidro ∈ t.cols := hreq _ (by decide)
  have m2 : Col.fotovolt ∈ t.cols := hreq _ (by decide)
  have m3 : Col.eolian ∈ t.cols := hreq _ (by decide)
  have m4 : Col.biomasa ∈ t.cols := hreq _ (by decide)
  have m5 : Col.carbune ∈ t.cols := hreq _ (by decide)
  have m6 : Col.hidrocarburi ∈ t.cols := hreq _ (by decide)
  have m7 : Col.nuclear ∈ t.cols := hreq _ (by decide)
  have m8 : Col.productie ∈ t.cols := hreq _ (by decide)
  have m9 : Col.consum ∈ t.cols := hreq _ (by decide)
  have f1 : Col.total_regenerabila ∉ t.cols := hf _ (by decide)
  have f2 : Col.total_neregenerabila ∉ t.cols := hf _ (by decide)
  have f3 : Col.procent_regenerabila ∉ t.cols := hf _ (by decide)
  have f4 : Col.sold_energetic ∉ t.cols := hf _ (by decide)
  have f5 : Col.eficienta_retea ∉ t.cols := hf _ (by decide)
  simp only [addEnergyApp, subColsE_pos4, subColsE_pos3, getColE_pos, bind_ok,
    List.map_map, list_zipWith_map_self, setCol_fresh_map, setCol_fresh_map2,
    List.mem_append, List.mem_singleton, List.mem_cons, List.not_mem_nil,
    m1, m2, m3, m4, m5, m6, m7, m8, m9, f1, f2, f3, f4, f5,
    true_or, or_true, or_false, false_or, true_and, and_true, and_self,
    not_false_iff, not_true, reduceCtorEq, ite_true, ite_false,
    List.append_assoc, List.cons_append, List.singleton_append,
    List.nil_append, energyColsApp]
  rfl

/-- With the required columns present and the new columns fresh,
`addEnergyMain` appends its four columns and maps `energyRowMain`. -/
lemma addEnergyMain_master (t : Table)
    (hreq : ∀ c ∈ requiredMain, c ∈ t.cols)
    (hf : ∀ c ∈ energyColsMain, c ∉ t.cols) :
    addEnergyMain t =
      Except.ok { cols := t.cols ++ energyColsMain
                  rows := t.rows.map energyRowMain } := by
  have m1 : Col.hidro ∈ t.cols := hreq _ (by decide)
  have m2 : Col.fotovolt ∈ t.cols := hreq _ (by decide)
  have m3 : Col.eolian ∈ t.cols := hreq _ (by decide)
  have m4 : Col.biomasa ∈ t.cols := hreq _ (by decide)
  have m8 : Col.productie ∈ t.cols := hreq _ (by decide)
  have m9 : Col.consum ∈ t.cols := hreq _ (by decide)
  have m10 : Col.sold ∈ t.cols := hreq _ (by decide)
  have f1 : Col.consum_acoperit ∉ t.cols := hf _ (by decide)
  have f2 : Col.total_regenerabila ∉ t.cols := hf _ (by decide)
  have f3 : Col.procent_regenerabila ∉ t.cols := hf _ (by decide)
  have f4 : Col.sold_absolut ∉ t.cols := hf _ (by decide)
  simp only [addEnergyMain, subColsE_pos4, subColsE_pos3, getColE_pos, bind_ok,
    List.map_map, list_zipWith_map_self, setCol_fresh_map, setCol_fresh_map2,
    List.mem_append, List.mem_singleton, List.mem_cons, List.not_mem_nil,
    m1, m2, m3, m4, m8, m9, m10, f1, f2, f3, f4,
    true_or, or_true, or_false, false_or, true_and, and_true, and_self,
    not_false_iff, not_true, reduceCtorEq, ite_true, ite_false,
    List.append_assoc, List.cons_append, List.singleton_append,
    List.nil_append, energyColsMain]
  rfl

/-- Normal form of the dashboard feature block on a raw-schema table. -/
lemma load_data_features_master (df : Table) (hd : Col.date_ ∈ df.cols)
    (hreq : ∀ c ∈ requiredApp, c ∈ df.cols)
    (hfresh : ∀ c ∈ derivedApp, c ∉ df.cols) :
    load_data_features df =
      Except.ok { cols := df.cols ++ derivedApp
                  rows := df.rows.map appRow } := by
  have hfc : ∀ c ∈ calCols, c ∉ df.cols := by
    intro c hc
    exact hfresh c (by simp [derivedApp, List.mem_append, hc])
  have hreq2 : ∀ c ∈ requiredApp, c ∈ df.cols ++ calCols := by
    intro c hc
    exact List.mem_append_left _ (hreq c hc)
  have hfe : ∀ c ∈ energyColsApp, c ∉ df.cols ++ calCols := by
    intro c hc
    have hnc : c ∉ df.cols := hfresh c (by simp [derivedApp, List.mem_append, hc])
    have hcal : c ∉ calCols := by
      have hall : ∀ x ∈ energyColsApp, x ∉ calCols := by decide
      exact hall c hc
    simp [List.mem_append, hnc, hcal]
  unfold load_data_features
  rw [addCalendar_master df hd hfc, bind_ok]
  rw [addEnergyApp_master _ hreq2 hfe]
  simp only [List.map_map, List.append_assoc]
  rfl

/-- Normal form of the script feature block on a raw-schema table. -/
lemma engineer_features_master (df : Table) (hd : Col.date_ ∈ df.cols)
    (hreq : ∀ c ∈ requiredMain, c ∈ df.cols)
    (hfresh : ∀ c ∈ derivedMain, c ∉ df.cols) :
    engineer_features df =
      Except.ok { cols := df.cols ++ derivedMain
                  rows := df.rows.map mainRow } := by
  have hfc : ∀ c ∈ calCols, c ∉ df.cols := by
    intro c hc
    exact hfresh c (by simp [derivedMain, List.mem_append, hc])
  have hreq2 : ∀ c ∈ requiredMain, c ∈ df.cols ++ calCols := by
    intro c hc
    exact List.mem_append_left _ (hreq c hc)
  have hfe : ∀ c ∈ energyColsMain, c ∉ df.cols ++ calCols := by
    intro c hc
    have hnc : c ∉ df.cols := hfresh c (by simp [derivedMain, List.mem_append, hc])
    have hcal : c ∉ calCols := by
      have hall : ∀ x ∈ energyColsMain, x ∉ calCols := by decide
      exact hall c hc
    simp [List.mem_append, hnc, hcal]
  unfold engineer_features
  rw [addCalendar_master df hd hfc, bind_ok]
  rw [addEnergyMain_master _ hreq2 hfe]
  simp only [List.map_map, List.append_assoc]
  rfl

/-! ### Row-level evaluation of the derived fields -/

lemma appRow_eficienta (r : Row) :
    appRow r .eficienta_retea =
      cellClip 0 200 (cellMul100 (cellDiv (r .productie) (r .consum))) := rfl

lemma appRow_procent (r : Row) :
    appRow r .procent_regenerabila =
      cellFillna0 (cellMul100 (cellDiv
        (rowSumSkipNa [r .hidro, r .fotovolt, r .eolian, r .biomasa])
        (r .productie))) := rfl

lemma appRow_sold_energetic (r : Row) :
    appRow r .sold_energetic = cellSub (r .productie) (r .consum) := rfl

lemma appRow_productie (r : Row) : appRow r .productie = r .productie := rfl

lemma appRow_consum (r : Row) : appRow r .consum = r .consum := rfl

lemma appRow_hidro (r : Row) : appRow r .hidro = r .hidro := rfl

lemma appRow_fotovolt (r : Row) : appRow r .fotovolt = r .fotovolt := rfl

lemma appRow_eolian (r : Row) : appRow r .eolian = r .eolian := rfl

lemma appRow_biomasa (r : Row) : appRow r .biomasa = r .biomasa := rfl

lemma mainRow_procent (r : Row) :
    mainRow r .procent_regenerabila =
      cellRound 2 (cellMul100 (cellDiv
        (rowSumSkipNa [r .hidro, r .fotovolt, r .eolian, r .biomasa])
        (r .productie))) := rfl

lemma mainRow_productie (r : Row) : mainRow r .productie = r .productie := rfl

lemma mainRow_hidro (r : Row) : mainRow r .hidro = r .hidro := rfl

lemma mainRow_fotovolt (r : Row) : mainRow r .fotovolt = r .fotovolt := rfl

lemma mainRow_eolian (r : Row) : mainRow r .eolian = r .eolian := rfl

lemma mainRow_biomasa (r : Row) : mainRow r .biomasa = r .biomasa := rfl

/-- The dashboard feature block leaves every non-derived column of a row
unchanged. -/
lemma appRow_preserve (r : Row) (c : Col) (h : c ∉ derivedApp) :
    appRow r c = r c := by
  simp only [derivedApp, calCols, energyColsApp, List.mem_append,
    List.mem_cons, List.not_mem_nil, or_false, not_or] at h
  obtain ⟨⟨h1, h2, h3, h4, h5, h6, h7⟩, h8, h9, h10, h11, h12⟩ := h
  simp [appRow, energyRowApp, calRow, updRow, h1, h2, h3, h4, h5, h6, h7,
    h8, h9, h10, h11, h12]

/-- The script feature block leaves every non-derived column of a row
unchanged. -/
lemma mainRow_preserve (r : Row) (c : Col) (h : c ∉ derivedMain) :
    mainRow r c = r c := by
  simp only [derivedMain, calCols, energyColsMain, List.mem_append,
    List.mem_cons, List.not_mem_nil, or_false, not_or] at h
  obtain ⟨⟨h1, h2, h3, h4, h5, h6, h7⟩, h8, h9, h10, h11⟩ := h
  simp [mainRow, energyRowMain, calRow, updRow, h1, h2, h3, h4, h5, h6, h7,
    h8, h9, h10, h11]

/-! ### Facts about the extended float operations -/

/-- Does a cell hold a finite number within the closed range `[lo, hi]`? -/
def cellInRange (lo hi : ℚ) (c : Cell) : Bool :=
  match c with
  | Cell.num (PF.fin q) => decide (lo ≤ q ∧ q ≤ hi)
  | _ => false

lemma pf_clip_mem (x : PF) (hx : x ≠ PF.nan) :
    ∃ q : ℚ, PF.clip 0 200 x = PF.fin q ∧ 0 ≤ q ∧ q ≤ 200 := by
  cases x with
  | nan => exact absurd rfl hx
  | pinf => exact ⟨200, rfl, by norm_num⟩
  | ninf => exact ⟨0, rfl, by norm_num⟩
  | fin a =>
      refine ⟨min 200 (max 0 a), rfl, ?_, min_le_left _ _⟩
      exact le_min (by norm_num) (le_max_left _ _)

lemma pf_divmul_ne_nan (p c : ℚ) (h : ¬(p = 0 ∧ c = 0)) :
    PF.mul (PF.div (PF.fin p) (PF.fin c)) (PF.fin 100) ≠ PF.nan := by
  by_cases hc : c = 0
  · subst hc
    have hp : p ≠ 0 := fun hp0 => h ⟨hp0, rfl⟩
    rcases lt_trichotomy p 0 with hlt | heq | hgt
    · have hdiv : PF.div (PF.fin p) (PF.fin 0) = PF.ninf := by
        simp [PF.div, hp, not_lt.mpr hlt.le]
      rw [hdiv]
      norm_num [PF.mul]
      decide
    · exact absurd heq hp
    · have hdiv : PF.div (PF.fin p) (PF.fin 0) = PF.pinf := by
        simp [PF.div, hp, hgt]
      rw [hdiv]
      norm_num [PF.mul]
      decide
  · have hdiv : PF.div (PF.fin p) (PF.fin c) = PF.fin (p / c) := by
      simp [PF.div, hc]
    rw [hdiv]
    simp [PF.mul]

lemma pf_div_nan (x : PF) : PF.div x PF.nan = PF.nan := by
  cases x <;> rfl

lemma pf_fillna_ne_nan (v : ℚ) (y : PF) (hy : y ≠ PF.nan) :
    PF.fillna v y = y := by
  cases y with
  | nan => exact absurd rfl hy
  | pinf => rfl
  | ninf => rfl
  | fin a => rfl

lemma cellMul100_num (c : Cell) : ∃ y, cellMul100 c = Cell.num y := by
  cases c with
  | num x => exact ⟨_, rfl⟩
  | str s => exact ⟨_, rfl⟩
  | boolean b => exact ⟨_, rfl⟩

/-- Extract the input row behind an output row of the dashboard pipeline. -/
lemma app_out_row (df : Table) (hd : Col.date_ ∈ df.cols)
    (hreq : ∀ c ∈ requiredApp, c ∈ df.cols)
    (hfresh : ∀ c ∈ derivedApp, c ∉ df.cols)
    (out : Table) (hout : load_data_features df = Except.ok out)
    (i : ℕ) (r : Row) (hr : out.rows.get? i = some r) :
    ∃ r0, df.rows.get? i = some r0 ∧ r = appRow r0 := by
  rw [load_data_features_master df hd hreq hfresh] at hout
  injection hout with h
  subst h
  rw [show (Table.mk (df.cols ++ derivedApp) (df.rows.map appRow)).rows
        = df.rows.map appRow from rfl, List.get?_map] at hr
  obtain ⟨r0, h0, hr0⟩ := Option.map_eq_some'.mp hr
  exact ⟨r0, h0, hr0.symm⟩

/-- Extract the input row behind an output row of the script pipeline. -/
lemma main_out_row (df : Table) (hd : Col.date_ ∈ df.cols)
    (hreq : ∀ c ∈ requiredMain, c ∈ df.cols)
    (hfresh : ∀ c ∈ derivedMain, c ∉ df.cols)
    (out : Table) (hout : engineer_features df = Except.ok out)
    (i : ℕ) (r : Row) (hr : out.rows.get? i = some r) :
    ∃ r0, df.rows.get? i = some r0 ∧ r = mainRow r0 := by
  rw [engineer_features_master df hd hreq hfresh] at hout
  injection hout with h
  subst h
  rw [show (Table.mk (df.cols ++ derivedMain) (df.rows.map mainRow)).rows
        = df.rows.map mainRow from rfl, List.get?_map] at hr
  obtain ⟨r0, h0, hr0⟩ := Option.map_eq_some'.mp hr
  exact ⟨r0, h0, hr0.symm⟩

/-! ### Concrete sample tables for witnesses and counterexamples -/

/-- Shorthand for a finite numeric cell. -/
def nq (q : ℚ) : Cell := Cell.num (PF.fin q)

/-- The raw CSV schema. -/
def rawCols : List Col :=
  [.date_, .consum, .productie, .carbune, .hidro, .hidrocarburi, .nuclear,
   .eolian, .fotovolt, .biomasa, .sold]

/-- One raw record with the given production, consumption and hydro values;
every other source is `0`, the timestamp is the epoch. -/
def sampleRow (p c h : ℚ) : Row := mkRow
  [(.date_, nq 0), (.consum, nq c), (.productie, nq p), (.carbune, nq 0),
   (.hidro, nq h), (.hidrocarburi, nq 0), (.nuclear, nq 0), (.eolian, nq 0),
   (.fotovolt, nq 0), (.biomasa, nq 0), (.sold, nq 0)]

/-- A one-row raw table. -/
def sampleT (p c h : ℚ) : Table :=
  { cols := rawCols, rows := [sampleRow p c h] }

/-! ### C1 — range of the grid-efficiency field -/

/-- C1 (amended): for every row of the enriched table whose production and
consumption cells are present (non-NaN) finite values that are not both
zero, the derived `eficienta_retea` is a finite value in `[0, 200]`.  (As
stated, the claim fails when production and consumption are both `0`, or
when either is missing: the division yields NaN, `clip` keeps NaN, see
`c1_counterexample`.) -/
theorem c1_grid_efficiency_range (df : Table) (hd : Col.date_ ∈ df.cols)
    (hreq : ∀ c ∈ requiredApp, c ∈ df.cols)
    (hfresh : ∀ c ∈ derivedApp, c ∉ df.cols)
    (out : Table) (hout : load_data_features df = Except.ok out)
    (i : ℕ) (r : Row) (hr : out.rows.get? i = some r)
    (p c : ℚ) (hp : r .productie = nq p) (hc : r .consum = nq c)
    (hpc : ¬(p = 0 ∧ c = 0)) :
    cellInRange 0 200 (r .eficienta_retea) = true := by
  obtain ⟨r0, _, rfl⟩ := app_out_row df hd hreq hfresh out hout i r hr
  rw [appRow_productie] at hp
  rw [appRow_consum] at hc
  rw [appRow_eficienta, hp, hc]
  have hne := pf_divmul_ne_nan p c hpc
  obtain ⟨q, hq, hq0, hq200⟩ := pf_clip_mem _ hne
  simp only [nq, cellDiv, cellZip, cellMul100, cellMap, cellClip, hq,
    cellInRange]
  rw [decide_eq_true_eq]
  exact ⟨hq0, hq200⟩

/-- C1 witness: a concrete row with production `8`, consumption `4`. -/
theorem c1_grid_efficiency_range_witness :
    cellInRange 0 200 (appRow (sampleRow 8 4 1) .eficienta_retea) = true :=
  c1_grid_efficiency_range (sampleT 8 4 1) (by decide) (by decide) (by decide)
    _ (load_data_features_master _ (by decide) (by decide) (by decide))
    0 _ rfl 8 4 (by decide) (by decide) (by decide)

/-- C1 counterexample: with production `0` and consumption `0` the division
yields NaN, `clip` leaves it NaN, and the derived field is not in
`[0, 200]`. -/
theorem c1_counterexample :
    load_data_features (sampleT 0 0 1) =
      Except.ok { cols := rawCols ++ derivedApp
                  rows := [sampleRow 0 0 1].map appRow }
    ∧ appRow (sampleRow 0 0 1) .eficienta_retea = cellNaN
    ∧ cellInRange 0 200 (appRow (sampleRow 0 0 1) .eficienta_retea) = false :=
  ⟨load_data_features_master _ (by decide) (by decide) (by decide),
   by decide, by decide⟩

/-! ### C10 — zero consumption with positive production clamps to 200 -/

/-- C10: for every enriched row with consumption `0` and production strictly
positive, `eficienta_retea` is exactly `200` (the division yields `+∞` and
the clip maps it to the upper bound), and no error is raised. -/
theorem c10_efficiency_at_zero_consumption (df : Table)
    (hd : Col.date_ ∈ df.cols)
    (hreq : ∀ c ∈ requiredApp, c ∈ df.cols)
    (hfresh : ∀ c ∈ derivedApp, c ∉ df.cols)
    (out : Table) (hout : load_data_features df = Except.ok out)
    (i : ℕ) (r : Row) (hr : out.rows.get? i = some r)
    (p : ℚ) (hp : r .productie = nq p) (hppos : 0 < p)
    (hc : r .consum = nq 0) :
    r .eficienta_retea = Cell.num (PF.fin 200) := by
  obtain ⟨r0, _, rfl⟩ := app_out_row df hd hreq hfresh out hout i r hr
  rw [appRow_productie] at hp
  rw [appRow_consum] at hc
  rw [appRow_eficienta, hp, hc]
  have hdiv : PF.div (PF.fin p) (PF.fin 0) = PF.pinf := by
    simp [PF.div, hppos.ne', hppos]
  simp [cellDiv, cellZip, nq, hdiv, cellMul100, cellMap, PF.mul, cellClip,
    PF.clip]

/-- C10 witness: production `5`, consumption `0`. -/
theorem c10_efficiency_at_zero_consumption_witness :
    appRow (sampleRow 5 0 1) .eficienta_retea = Cell.num (PF.fin 200) :=
  c10_efficiency_at_zero_consumption (sampleT 5 0 1) (by decide) (by decide)
    (by decide) _ (load_data_features_master _ (by decide) (by decide)
    (by decide)) 0 _ rfl 5 (by decide) (by decide) (by decide)

/-! ### C6 — the net balance field -/

/-- C6: for every enriched row with present finite production and
consumption, `sold_energetic` equals `production - consumption` exactly
(hence in particular within the `1e-9` tolerance); it is computed from the
row's own fields, not read from the input `sold` column. -/
theorem c6_net_balance (df : Table) (hd : Col.date_ ∈ df.cols)
    (hreq : ∀ c ∈ requiredApp, c ∈ df.cols)
    (hfresh : ∀ c ∈ derivedApp, c ∉ df.cols)
    (out : Table) (hout : load_data_features df = Except.ok out)
    (i : ℕ) (r : Row) (hr : out.rows.get? i = some r)
    (p c : ℚ) (hp : r .productie = nq p) (hc : r .consum = nq c) :
    r .sold_energetic = Cell.num (PF.fin (p - c)) ∧
    ∃ q : ℚ, r .sold_energetic = Cell.num (PF.fin q) ∧
      |q - (p - c)| ≤ 1 / 1000000000 := by
  obtain ⟨r0, _, rfl⟩ := app_out_row df hd hreq hfresh out hout i r hr
  rw [appRow_productie] at hp
  rw [appRow_consum] at hc
  rw [appRow_sold_energetic, hp, hc]
  have hsub : cellSub (nq p) (nq c) = Cell.num (PF.fin (p - c)) := by
    simp [cellSub, cellZip, nq, PF.sub, PF.add, PF.neg, sub_eq_add_neg]
  exact ⟨hsub, p - c, hsub, by simp⟩

/-- C6 witness: production `7`, consumption `10` gives balance `-3`. -/
theorem c6_net_balance_witness :
    appRow (sampleRow 7 10 1) .sold_energetic = Cell.num (PF.fin (-3)) ∧
    ∃ q : ℚ, appRow (sampleRow 7 10 1) .sold_energetic
        = Cell.num (PF.fin q) ∧ |q - (7 - 10)| ≤ 1 / 1000000000 := by
  have h := c6_net_balance (sampleT 7 10 1) (by decide) (by decide)
    (by decide) _ (load_data_features_master _ (by decide) (by decide)
    (by decide)) 0 _ rfl 7 10 (by decide) (by decide)
  norm_num at h ⊢
  exact h

/-- Evaluation of the renewable row sum on four finite cells. -/
lemma rowSum4_nq (a b c d : ℚ) :
    rowSumSkipNa [nq a, nq b, nq c, nq d] = nq (a + b + c + d) := by
  simp [rowSumSkipNa, nq, PF.add, List.foldl, add_assoc]

/-! ### C2 — the renewable-percentage field of the dashboard -/

/-- C2 (amended): for every enriched row, `procent_regenerabila` equals `0`
when production is missing, and also when production is `0` with a zero
renewable total; and it lies in `[0, 100]` whenever production is a finite
positive value and the renewable total is a finite value between `0` and
production.  (As stated, the claim fails: with production `0` and a positive
renewable total the value is `+∞`, not `0`, and with a renewable total
exceeding production it exceeds `100`, see `c2_counterexample`.) -/
theorem c2_renewable_percentage (df : Table) (hd : Col.date_ ∈ df.cols)
    (hreq : ∀ c ∈ requiredApp, c ∈ df.cols)
    (hfresh : ∀ c ∈ derivedApp, c ∉ df.cols)
    (out : Table) (hout : load_data_features df = Except.ok out)
    (i : ℕ) (r : Row) (hr : out.rows.get? i = some r) :
    (r .productie = cellNaN → r .procent_regenerabila = Cell.num (PF.fin 0))
    ∧ (r .productie = nq 0 →
        rowSumSkipNa [r .hidro, r .fotovolt, r .eolian, r .biomasa] = nq 0 →
        r .procent_regenerabila = Cell.num (PF.fin 0))
    ∧ (∀ p s : ℚ, r .productie = nq p → 0 < p →
        rowSumSkipNa [r .hidro, r .fotovolt, r .eolian, r .biomasa] = nq s →
        0 ≤ s → s ≤ p →
        cellInRange 0 100 (r .procent_regenerabila) = true) := by
  obtain ⟨r0, _, rfl⟩ := app_out_row df hd hreq hfresh out hout i r hr
  simp only [appRow_productie, appRow_hidro, appRow_fotovolt, appRow_eolian,
    appRow_biomasa, appRow_procent]
  refine ⟨?_, ?_, ?_⟩
  · intro hnan
    rw [hnan]
    simp [cellNaN, rowSumSkipNa, cellDiv, cellZip, pf_div_nan, cellMul100,
      cellMap, PF.mul, cellFillna0, PF.fillna]
  · intro h0 hs
    rw [h0, hs]
    simp [nq, cellDiv, cellZip, PF.div, cellMul100, cellMap, PF.mul,
      cellFillna0, PF.fillna]
  · intro p s hp hpos hs hs0 hsp
    rw [hp, hs]
    have hdiv : PF.div (PF.fin s) (PF.fin p) = PF.fin (s / p) := by
      simp [PF.div, hpos.ne']
    simp only [nq, cellDiv, cellZip, hdiv, cellMul100, cellMap,
      cellFillna0, PF.mul, PF.fillna, cellInRange]
    rw [decide_eq_true_eq]
    constructor
    · positivity
    · have h1 : s / p ≤ 1 := (div_le_one hpos).mpr hsp
      nlinarith

/-- C2 witness: production `4`, renewable total `1` gives a percentage in
`[0, 100]`; the other two clauses hold vacuously at this row. -/
theorem c2_renewable_percentage_witness :
    cellInRange 0 100 (appRow (sampleRow 4 5 1) .procent_regenerabila)
      = true :=
  (c2_renewable_percentage (sampleT 4 5 1) (by decide) (by decide) (by decide)
    _ (load_data_features_master _ (by decide) (by decide) (by decide))
    0 _ rfl).2.2 4 1 (by decide) (by norm_num)
    (by
      rw [appRow_hidro, appRow_fotovolt, appRow_eolian, appRow_biomasa,
        show sampleRow 4 5 1 .hidro = nq 1 from rfl,
        show sampleRow 4 5 1 .fotovolt = nq 0 from rfl,
        show sampleRow 4 5 1 .eolian = nq 0 from rfl,
        show sampleRow 4 5 1 .biomasa = nq 0 from rfl, rowSum4_nq]
      norm_num)
    (by norm_num) (by norm_num)

/-- C2 counterexample: with production `0` and hydro `100` the dashboard
value is `+∞`, not `0`; with production `1` and hydro `100` it is `10000`,
outside `[0, 100]`. -/
theorem c2_counterexample :
    load_data_features (sampleT 0 5 100) =
      Except.ok { cols := rawCols ++ derivedApp
                  rows := [sampleRow 0 5 100].map appRow }
    ∧ appRow (sampleRow 0 5 100) .procent_regenerabila = Cell.num PF.pinf
    ∧ appRow (sampleRow 0 5 100) .procent_regenerabila ≠ Cell.num (PF.fin 0)
    ∧ appRow (sampleRow 1 5 100) .procent_regenerabila
        = Cell.num (PF.fin 10000)
    ∧ cellInRange 0 100 (appRow (sampleRow 1 5 100) .procent_regenerabila)
        = false := by
  have e1 : appRow (sampleRow 0 5 100) .procent_regenerabila
      = Cell.num PF.pinf := by
    rw [appRow_procent,
      show sampleRow 0 5 100 .hidro = nq 100 from rfl,
      show sampleRow 0 5 100 .fotovolt = nq 0 from rfl,
      show sampleRow 0 5 100 .eolian = nq 0 from rfl,
      show sampleRow 0 5 100 .biomasa = nq 0 from rfl,
      show sampleRow 0 5 100 .productie = nq 0 from rfl, rowSum4_nq]
    norm_num [nq, cellDiv, cellZip, cellMul100, cellMap, cellFillna0, PF.div,
      PF.mul, PF.fillna]
  have e2 : appRow (sampleRow 1 5 100) .procent_regenerabila
      = Cell.num (PF.fin 10000) := by
    rw [appRow_procent,
      show sampleRow 1 5 100 .hidro = nq 100 from rfl,
      show sampleRow 1 5 100 .fotovolt = nq 0 from rfl,
      show sampleRow 1 5 100 .eolian = nq 0 from rfl,
      show sampleRow 1 5 100 .biomasa = nq 0 from rfl,
      show sampleRow 1 5 100 .productie = nq 1 from rfl, rowSum4_nq]
    norm_num [nq, cellDiv, cellZip, cellMul100, cellMap, cellFillna0, PF.div,
      PF.mul, PF.fillna]
  refine ⟨load_data_features_master _ (by decide) (by decide) (by decide),
    e1, by rw [e1]; decide, e2, by rw [e2]; decide⟩

/-! ### C3 — missing required columns fail with a KeyError naming them -/

lemma mem_setCol_ne {t : Table} {c d : Col} (v : List Cell) (hcd : c ≠ d) :
    c ∈ (t.setCol d v).cols ↔ c ∈ t.cols := by
  rw [mem_setCol_iff]
  simp [hcd]

/-- If some required column is absent, the dashboard energy block raises a
KeyError whose column list is non-empty and names only required columns
that are indeed absent. -/
lemma addEnergyApp_err (t : Table) (h : ∃ c ∈ requiredApp, c ∉ t.cols) :
    ∃ e, addEnergyApp t = Except.error e ∧ e ≠ [] ∧
      ∀ c ∈ e, c ∈ requiredApp ∧ c ∉ t.cols := by
  have sub4 : ∀ c ∈ ([.hidro, .fotovolt, .eolian, .biomasa] : List Col),
      c ∈ requiredApp := by decide
  have sub3 : ∀ c ∈ ([.carbune, .hidrocarburi, .nuclear] : List Col),
      c ∈ requiredApp := by decide
  have hne1 : ∀ c ∈ requiredApp, c ≠ Col.total_regenerabila := by decide
  have hne2 : ∀ c ∈ requiredApp, c ≠ Col.total_neregenerabila := by decide
  have hne3 : ∀ c ∈ requiredApp, c ≠ Col.procent_regenerabila := by decide
  by_cases hm1 : ([.hidro, .fotovolt, .eolian, .biomasa] : List Col).filter
      (fun c => c ∉ t.cols) = []
  · have h4 : ∀ c ∈ ([.hidro, .fotovolt, .eolian, .biomasa] : List Col),
        c ∈ t.cols := by
      intro c hc
      have := List.filter_eq_nil_iff.mp hm1 c hc
      simpa using this
    unfold addEnergyApp
    rw [subColsE_pos4 t _ _ _ _ (h4 _ (by decide)) (h4 _ (by decide))
      (h4 _ (by decide)) (h4 _ (by decide)), bind_ok]
    try dsimp only
    have t1mem : ∀ c ∈ requiredApp, (c ∈ (t.setCol .total_regenerabila
        ((t.rows.map (fun r =>
          [Col.hidro, Col.fotovolt, Col.eolian, Col.biomasa].map r)).map
            rowSumSkipNa)).cols ↔ c ∈ t.cols) := by
      intro c hc
      exact mem_setCol_ne _ (hne1 c hc)
    by_cases hm2 : ([.carbune, .hidrocarburi, .nuclear] : List Col).filter
        (fun c => c ∉ (t.setCol .total_regenerabila
          ((t.rows.map (fun r =>
            [Col.hidro, Col.fotovolt, Col.eolian, Col.biomasa].map r)).map
              rowSumSkipNa)).cols) = []
    · have h3 : ∀ c ∈ ([.carbune, .hidrocarburi, .nuclear] : List Col),
          c ∈ t.cols := by
        intro c hc
        have := List.filter_eq_nil_iff.mp hm2 c hc
        have hmem := (t1mem c (sub3 c hc))
        simp only at this
        rw [← hmem]
        simpa using this
      rw [subColsE_pos3 _ _ _ _ ((t1mem _ (sub3 _ (by decide))).mpr
        (h3 _ (by decide))) ((t1mem _ (sub3 _ (by decide))).mpr
        (h3 _ (by decide))) ((t1mem _ (sub3 _ (by decide))).mpr
        (h3 _ (by decide))), bind_ok]
      try dsimp only
      rw [getColE_pos _ _ (mem_setCol_of_mem _ _ (mem_setCol_self _ _ _)),
        bind_ok]
      try dsimp only
      by_cases hp : Col.productie ∈ t.cols
      · rw [getColE_pos _ _ ((mem_setCol_ne _ (by decide)).mpr
          ((mem_setCol_ne _ (by decide)).mpr hp)), bind_ok]
        try dsimp only
        rw [getColE_pos _ _ ((mem_setCol_ne _ (by decide)).mpr
          ((mem_setCol_ne _ (by decide)).mpr
          ((mem_setCol_ne _ (by decide)).mpr hp))), bind_ok]
        try dsimp only
        by_cases hc : Col.consum ∈ t.cols
        · exfalso
          obtain ⟨c, hcr, hcn⟩ := h
          have : c ∈ t.cols := by
            have h9 : c ∈ ([.hidro, .fotovolt, .eolian, .biomasa, .carbune,
                .hidrocarburi, .nuclear, .productie, .consum] : List Col) := by
              simpa [requiredApp] using hcr
            simp only [List.mem_cons, List.not_mem_nil, or_false] at h9
            rcases h9 with rfl | rfl | rfl | rfl | rfl | rfl | rfl | rfl | rfl
            · exact h4 _ (by decide)
            · exact h4 _ (by decide)
            · exact h4 _ (by decide)
            · exact h4 _ (by decide)
            · exact h3 _ (by decide)
            · exact h3 _ (by decide)
            · exact h3 _ (by decide)
            · exact hp
            · exact hc
          exact hcn this
        · rw [getColE_neg _ _ (fun hmem => hc
            ((mem_setCol_ne _ (by decide)).mp
            ((mem_setCol_ne _ (by decide)).mp
            ((mem_setCol_ne _ (by decide)).mp hmem)))), bind_err]
          exact ⟨[.consum], rfl, by decide, by
            intro c hcm
            simp only [List.mem_singleton] at hcm
            subst hcm
            exact ⟨by decide, hc⟩⟩
      · rw [getColE_neg _ _ (fun hmem => hp
          ((mem_setCol_ne _ (by decide)).mp
          ((mem_setCol_ne _ (by decide)).mp hmem))), bind_err]
        exact ⟨[.productie], rfl, by decide, by
          intro c hcm
          simp only [List.mem_singleton] at hcm
          subst hcm
          exact ⟨by decide, hp⟩⟩
    · rw [subColsE_neg _ _ hm2, bind_err]
      refine ⟨_, rfl, hm2, ?_⟩
      intro c hcm
      have hm := List.mem_filter.mp hcm
      refine ⟨sub3 c hm.1, ?_⟩
      have := of_decide_eq_true hm.2
      intro hct
      exact this ((t1mem c (sub3 c hm.1)).mpr hct)
  · unfold addEnergyApp
    rw [subColsE_neg _ _ hm1, bind_err]
    refine ⟨_, rfl, hm1, ?_⟩
    intro c hcm
    have hm := List.mem_filter.mp hcm
    exact ⟨sub4 c hm.1, of_decide_eq_true hm.2⟩

/-- With every required column present, the dashboard energy block
succeeds. -/
lemma addEnergyApp_ok (t : Table) (h : ∀ c ∈ requiredApp, c ∈ t.cols) :
    ∃ u, addEnergyApp t = Except.ok u := by
  unfold addEnergyApp
  rw [subColsE_pos4 t _ _ _ _ (h _ (by decide)) (h _ (by decide))
    (h _ (by decide)) (h _ (by decide)), bind_ok]
  try dsimp only
  rw [subColsE_pos3 _ _ _ _ ((mem_setCol_ne _ (by decide)).mpr
    (h _ (by decide))) ((mem_setCol_ne _ (by decide)).mpr (h _ (by decide)))
    ((mem_setCol_ne _ (by decide)).mpr (h _ (by decide))), bind_ok]
  try dsimp only
  rw [getColE_pos _ _ (mem_setCol_of_mem _ _ (mem_setCol_self _ _ _)),
    bind_ok]
  try dsimp only
  rw [getColE_pos _ _ ((mem_setCol_ne _ (by decide)).mpr
    ((mem_setCol_ne _ (by decide)).mpr (h _ (by decide)))), bind_ok]
  try dsimp only
  rw [getColE_pos _ _ ((mem_setCol_ne _ (by decide)).mpr
    ((mem_setCol_ne _ (by decide)).mpr
    ((mem_setCol_ne _ (by decide)).mpr (h _ (by decide))))), bind_ok]
  try dsimp only
  rw [getColE_pos _ _ ((mem_setCol_ne _ (by decide)).mpr
    ((mem_setCol_ne _ (by decide)).mpr
    ((mem_setCol_ne _ (by decide)).mpr (h _ (by decide))))), bind_ok]
  try dsimp only
  rw [getColE_pos _ _ ((mem_setCol_ne _ (by decide)).mpr
    ((mem_setCol_ne _ (by decide)).mpr
    ((mem_setCol_ne _ (by decide)).mpr
    ((mem_setCol_ne _ (by decide)).mpr (h _ (by decide)))))), bind_ok]
  try dsimp only
  rw [getColE_pos _ _ ((mem_setCol_ne _ (by decide)).mpr
    ((mem_setCol_ne _ (by decide)).mpr
    ((mem_setCol_ne _ (by decide)).mpr
    ((mem_setCol_ne _ (by decide)).mpr (h _ (by decide)))))), bind_ok]
  try dsimp only
  exact ⟨_, rfl⟩

/-- C3: on a table with the parsed date column and a raw schema (calendar
names fresh), if any source-production field, production, or consumption is
absent, the dashboard pipeline fails with a KeyError naming only absent
required columns (at least one), and returns no table; and if all required
columns are present, it succeeds.  (The embedding's error value is the
pandas KeyError that `load_data` reports via `st.error` before returning
`None`; the spec's `SchemaError` taxonomy name corresponds to this
failure.) -/
theorem c3_missing_columns_fail (df : Table) (hd : Col.date_ ∈ df.cols)
    (hfresh : ∀ c ∈ calCols, c ∉ df.cols) :
    ((∃ c ∈ requiredApp, c ∉ df.cols) →
      ∃ e, load_data_features df = Except.error e ∧ e ≠ [] ∧
        ∀ c ∈ e, c ∈ requiredApp ∧ c ∉ df.cols)
    ∧ ((∀ c ∈ requiredApp, c ∈ df.cols) →
      ∃ u, load_data_features df = Except.ok u) := by
  have hreqcal : ∀ c ∈ requiredApp, c ∉ calCols := by decide
  have hmem : ∀ c ∈ requiredApp,
      (c ∈ (Table.mk (df.cols ++ calCols) (df.rows.map calRow)).cols ↔
        c ∈ df.cols) := by
    intro c hc
    simp [List.mem_append, hreqcal c hc]
  constructor
  · intro h
    obtain ⟨c0, hc0r, hc0n⟩ := h
    unfold load_data_features
    rw [addCalendar_master df hd hfresh, bind_ok]
    obtain ⟨e, he, hene, hemem⟩ := addEnergyApp_err
      (Table.mk (df.cols ++ calCols) (df.rows.map calRow))
      ⟨c0, hc0r, fun hmem0 => hc0n ((hmem c0 hc0r).mp hmem0)⟩
    refine ⟨e, he, hene, ?_⟩
    intro c hce
    obtain ⟨hcr, hcn⟩ := hemem c hce
    exact ⟨hcr, fun hcd => hcn ((hmem c hcr).mpr hcd)⟩
  · intro h
    unfold load_data_features
    rw [addCalendar_master df hd hfresh, bind_ok]
    exact addEnergyApp_ok _ (fun c hc => (hmem c hc).mpr (h c hc))

/-- A raw table lacking its consumption column. -/
def sampleTnoConsum : Table :=
  { cols := [.date_, .productie, .carbune, .hidro, .hidrocarburi, .nuclear,
             .eolian, .fotovolt, .biomasa, .sold]
    rows := [sampleRow 1 1 0] }

/-- C3 witness: dropping `consum` from the schema makes the pipeline fail
with an error naming only absent required columns. -/
theorem c3_missing_columns_fail_witness :
    ∃ e, load_data_features sampleTnoConsum = Except.error e ∧ e ≠ [] ∧
      ∀ c ∈ e, c ∈ requiredApp ∧ c ∉ sampleTnoConsum.cols :=
  (c3_missing_columns_fail sampleTnoConsum (by decide) (by decide)).1
    ⟨.consum, by decide, by decide⟩

/-! ### C7 — the enrichment appends columns and preserves rows -/

/-- C7: on a raw-schema table (derived names fresh, required columns
present), both feature blocks succeed, append their new columns to the
column list, keep exactly the same rows in the same order (same length,
and the row at every index agrees with the input row on every input
column — no input field is removed or changed). -/
theorem c7_enrichment_preserves_rows (df : Table) (hd : Col.date_ ∈ df.cols)
    (hreqA : ∀ c ∈ requiredApp, c ∈ df.cols)
    (hfA : ∀ c ∈ derivedApp, c ∉ df.cols)
    (hreqM : ∀ c ∈ requiredMain, c ∈ df.cols)
    (hfM : ∀ c ∈ derivedMain, c ∉ df.cols) :
    (∃ u, load_data_features df = Except.ok u ∧
      u.cols = df.cols ++ derivedApp ∧
      u.rows.length = df.rows.length ∧
      ∀ i r0 r1, df.rows.get? i = some r0 → u.rows.get? i = some r1 →
        ∀ c ∈ df.cols, r1 c = r0 c)
    ∧ (∃ u, engineer_features df = Except.ok u ∧
      u.cols = df.cols ++ derivedMain ∧
      u.rows.length = df.rows.length ∧
      ∀ i r0 r1, df.rows.get? i = some r0 → u.rows.get? i = some r1 →
        ∀ c ∈ df.cols, r1 c = r0 c) := by
  constructor
  · refine ⟨_, load_data_features_master df hd hreqA hfA, rfl,
      List.length_map _ _, ?_⟩
    intro i r0 r1 h0 h1 c hc
    rw [show (Table.mk (df.cols ++ derivedApp) (df.rows.map appRow)).rows
          = df.rows.map appRow from rfl, List.get?_map, h0] at h1
    injection h1 with h1
    subst h1
    exact appRow_preserve r0 c (fun hmem => hfA c hmem hc)
  · refine ⟨_, engineer_features_master df hd hreqM hfM, rfl,
      List.length_map _ _, ?_⟩
    intro i r0 r1 h0 h1 c hc
    rw [show (Table.mk (df.cols ++ derivedMain) (df.rows.map mainRow)).rows
          = df.rows.map mainRow from rfl, List.get?_map, h0] at h1
    injection h1 with h1
    subst h1
    exact mainRow_preserve r0 c (fun hmem => hfM c hmem hc)

/-- C7 witness at a concrete one-row table. -/
theorem c7_enrichment_preserves_rows_witness :
    (∃ u, load_data_features (sampleT 2 3 1) = Except.ok u ∧
      u.cols = (sampleT 2 3 1).cols ++ derivedApp ∧
      u.rows.length = (sampleT 2 3 1).rows.length ∧
      ∀ i r0 r1, (sampleT 2 3 1).rows.get? i = some r0 →
        u.rows.get? i = some r1 → ∀ c ∈ (sampleT 2 3 1).cols, r1 c = r0 c)
    ∧ (∃ u, engineer_features (sampleT 2 3 1) = Except.ok u ∧
      u.cols = (sampleT 2 3 1).cols ++ derivedMain ∧
      u.rows.length = (sampleT 2 3 1).rows.length ∧
      ∀ i r0 r1, (sampleT 2 3 1).rows.get? i = some r0 →
        u.rows.get? i = some r1 → ∀ c ∈ (sampleT 2 3 1).cols, r1 c = r0 c) :=
  c7_enrichment_preserves_rows (sampleT 2 3 1) (by decide) (by decide)
    (by decide) (by decide) (by decide)

/-! ### C9 — script vs dashboard renewable percentage -/

/-- C9 (amended): at every row, the script's `procent_regenerabila` is the
shared ratio rounded to two decimals with no NaN guard, while the
dashboard's is the same ratio with NaN replaced by `0` and no rounding.
Consequently the script value equals the dashboard value rounded to two
decimals whenever the ratio is not NaN, and at NaN rows (missing production,
or `0/0`) the dashboard yields `0` while the script yields NaN.  They are
not equal row-for-row in general, see `c9_counterexample`. -/
theorem c9_script_vs_dashboard_percentage (df : Table)
    (hd : Col.date_ ∈ df.cols)
    (hreqA : ∀ c ∈ requiredApp, c ∈ df.cols)
    (hfA : ∀ c ∈ derivedApp, c ∉ df.cols)
    (hreqM : ∀ c ∈ requiredMain, c ∈ df.cols)
    (hfM : ∀ c ∈ derivedMain, c ∉ df.cols)
    (outA : Table) (houtA : load_data_features df = Except.ok outA)
    (outM : Table) (houtM : engineer_features df = Except.ok outM)
    (i : ℕ) (rA rM : Row)
    (hrA : outA.rows.get? i = some rA) (hrM : outM.rows.get? i = some rM) :
    (rA .procent_regenerabila =
        cellFillna0 (cellMul100 (cellDiv
          (rowSumSkipNa [rA .hidro, rA .fotovolt, rA .eolian, rA .biomasa])
          (rA .productie)))
     ∧ rM .procent_regenerabila =
        cellRound 2 (cellMul100 (cellDiv
          (rowSumSkipNa [rA .hidro, rA .fotovolt, rA .eolian, rA .biomasa])
          (rA .productie))))
    ∧ (cellMul100 (cellDiv
          (rowSumSkipNa [rA .hidro, rA .fotovolt, rA .eolian, rA .biomasa])
          (rA .productie)) ≠ cellNaN →
        rM .procent_regenerabila = cellRound 2 (rA .procent_regenerabila))
    ∧ (cellMul100 (cellDiv
          (rowSumSkipNa [rA .hidro, rA .fotovolt, rA .eolian, rA .biomasa])
          (rA .productie)) = cellNaN →
        rA .procent_regenerabila = Cell.num (PF.fin 0)
        ∧ rM .procent_regenerabila = cellNaN) := by
  obtain ⟨r0, h0, rfl⟩ := app_out_row df hd hreqA hfA outA houtA i rA hrA
  obtain ⟨r1, h1, rfl⟩ := main_out_row df hd hreqM hfM outM houtM i rM hrM
  rw [h0] at h1
  injection h1 with h1
  subst h1
  simp only [appRow_productie, appRow_hidro, appRow_fotovolt, appRow_eolian,
    appRow_biomasa, appRow_procent, mainRow_procent]
  refine ⟨⟨by trivial, by trivial⟩, ?_, ?_⟩
  · intro hne
    obtain ⟨y, hy⟩ := cellMul100_num (cellDiv
      (rowSumSkipNa [r0 .hidro, r0 .fotovolt, r0 .eolian, r0 .biomasa])
      (r0 .productie))
    rw [hy] at hne ⊢
    have hyne : y ≠ PF.nan := by
      intro h
      exact hne (by rw [h]; rfl)
    simp [cellFillna0, cellMap, pf_fillna_ne_nan 0 y hyne]
  · intro hnan
    rw [hnan]
    exact ⟨rfl, rfl⟩

/-- C9 witness: at production `4`, hydro `1`, the ratio `25` is NaN-free and
round2-invariant, so the two pipelines agree as the amended claim states. -/
theorem c9_script_vs_dashboard_percentage_witness :
    mainRow (sampleRow 4 5 1) .procent_regenerabila
      = cellRound 2 (appRow (sampleRow 4 5 1) .procent_regenerabila) :=
  (c9_script_vs_dashboard_percentage (sampleT 4 5 1) (by decide) (by decide)
    (by decide) (by decide) (by decide)
    _ (load_data_features_master _ (by decide) (by decide) (by decide))
    _ (engineer_features_master _ (by decide) (by decide) (by decide))
    0 _ _ rfl rfl).2.1
    (by
      rw [appRow_hidro, appRow_fotovolt, appRow_eolian, appRow_biomasa,
        appRow_productie,
        show sampleRow 4 5 1 .hidro = nq 1 from rfl,
        show sampleRow 4 5 1 .fotovolt = nq 0 from rfl,
        show sampleRow 4 5 1 .eolian = nq 0 from rfl,
        show sampleRow 4 5 1 .biomasa = nq 0 from rfl,
        show sampleRow 4 5 1 .productie = nq 4 from rfl, rowSum4_nq]
      norm_num [nq, cellDiv, cellZip, cellMul100, cellMap, PF.div, PF.mul,
        cellNaN]
      decide)

/-- C9 counterexample: at production `3`, hydro `1` the script rounds
`100/3` to `33.33` while the dashboard keeps `100/3`; the two columns
differ row-for-row. -/
theorem c9_counterexample :
    load_data_features (sampleT 3 5 1) =
      Except.ok { cols := rawCols ++ derivedApp
                  rows := [sampleRow 3 5 1].map appRow }
    ∧ engineer_features (sampleT 3 5 1) =
      Except.ok { cols := rawCols ++ derivedMain
                  rows := [sampleRow 3 5 1].map mainRow }
    ∧ appRow (sampleRow 3 5 1) .procent_regenerabila
        = Cell.num (PF.fin (100 / 3))
    ∧ mainRow (sampleRow 3 5 1) .procent_regenerabila
        = Cell.num (PF.fin (3333 / 100))
    ∧ mainRow (sampleRow 3 5 1) .procent_regenerabila
        ≠ appRow (sampleRow 3 5 1) .procent_regenerabila := by
  refine ⟨load_data_features_master _ (by decide) (by decide) (by decide),
    engineer_features_master _ (by decide) (by decide) (by decide),
    ?_, ?_, ?_⟩
  · rw [appRow_procent,
      show sampleRow 3 5 1 .hidro = nq 1 from rfl,
      show sampleRow 3 5 1 .fotovolt = nq 0 from rfl,
      show sampleRow 3 5 1 .eolian = nq 0 from rfl,
      show sampleRow 3 5 1 .biomasa = nq 0 from rfl,
      show sampleRow 3 5 1 .productie = nq 3 from rfl, rowSum4_nq]
    norm_num [nq, cellDiv, cellZip, cellMul100, cellMap, cellFillna0, PF.div,
      PF.mul, PF.fillna]
  · rw [mainRow_procent,
      show sampleRow 3 5 1 .hidro = nq 1 from rfl,
      show sampleRow 3 5 1 .fotovolt = nq 0 from rfl,
      show sampleRow 3 5 1 .eolian = nq 0 from rfl,
      show sampleRow 3 5 1 .biomasa = nq 0 from rfl,
      show sampleRow 3 5 1 .productie = nq 3 from rfl, rowSum4_nq]
    norm_num [nq, cellDiv, cellZip, cellMul100, cellMap, cellRound, PF.div,
      PF.mul, PF.roundTo, PF.rhe]
  · rw [appRow_procent, mainRow_procent,
      show sampleRow 3 5 1 .hidro = nq 1 from rfl,
      show sampleRow 3 5 1 .fotovolt = nq 0 from rfl,
      show sampleRow 3 5 1 .eolian = nq 0 from rfl,
      show sampleRow 3 5 1 .biomasa = nq 0 from rfl,
      show sampleRow 3 5 1 .productie = nq 3 from rfl, rowSum4_nq]
    norm_num [nq, cellDiv, cellZip, cellMul100, cellMap, cellRound,
      cellFillna0, PF.div, PF.mul, PF.roundTo, PF.rhe, PF.fillna]

/-! ### Lemmas about the cleaning stage -/

lemma updRow_self (r : Row) (c : Col) : updRow r c (r c) = r := by
  funext x
  by_cases h : x = c
  · subst h
    simp [updRow]
  · simp [updRow, h]

lemma interpGo_length (orig : List Cell) :
    ∀ (j : ℕ) (l : List Cell), (interpGo orig j l).length = l.length := by
  intro j l
  induction l generalizing j with
  | nil => rfl
  | cons x rest ih => simp [interpGo, ih]

lemma interpCells_length (l : List Cell) :
    (interpCells l).length = l.length := interpGo_length l 0 l

lemma interpGo_id (orig : List Cell) :
    ∀ (j : ℕ) (l : List Cell), (∀ x ∈ l, x ≠ cellNaN) →
      interpGo orig j l = l := by
  intro j l
  induction l generalizing j with
  | nil => intro _; rfl
  | cons x rest ih =>
      intro h
      have hx : x ≠ cellNaN := h x (by simp)
      simp only [interpGo, if_neg hx]
      rw [ih (j + 1) (fun y hy => h y (by simp [hy]))]

lemma interpCells_id (l : List Cell) (h : ∀ x ∈ l, x ≠ cellNaN) :
    interpCells l = l := interpGo_id l 0 l h

lemma interpCol_id (t : Table) (c : Col) (hc : c ∈ t.cols)
    (h : ∀ r ∈ t.rows, r c ≠ cellNaN) : t.interpCol c = t := by
  unfold Table.interpCol
  rw [interpCells_id _ (by
    intro x hx
    obtain ⟨r, hr, rfl⟩ := List.mem_map.mp hx
    exact h r hr)]
  simp only [Table.setCol, if_pos hc]
  rw [list_zip_map_self]
  simp [updRow_self]

lemma foldl_interpCol_id (L : List Col) (t : Table)
    (h : ∀ c ∈ L, t.interpCol c = t) : L.foldl Table.interpCol t = t := by
  induction L with
  | nil => rfl
  | cons a L' ih =>
      simp only [List.foldl_cons, h a (by simp)]
      exact ih (fun c hc => h c (by simp [hc]))

lemma foldl_add_sum {α : Type} (f : α → ℕ) :
    ∀ (l : List α) (n : ℕ),
      l.foldl (fun a x => a + f x) n = n + (l.map f).sum := by
  intro l
  induction l with
  | nil => intro n; simp
  | cons x rest ih =>
      intro n
      simp only [List.foldl_cons, List.map_cons, List.sum_cons]
      rw [ih (n + f x)]
      omega

lemma countMissing_eq_sum (t : Table) :
    t.countMissing =
      (t.rows.map (fun r =>
        (t.cols.filter (fun c => r c = cellNaN)).length)).sum := by
  have h := foldl_add_sum
    (fun r => (t.cols.filter (fun c => r c = cellNaN)).length) t.rows 0
  simpa [Table.countMissing] using h

lemma countMissing_zero (t : Table) (h : t.countMissing = 0) :
    ∀ r ∈ t.rows, ∀ c ∈ t.cols, r c ≠ cellNaN := by
  rw [countMissing_eq_sum] at h
  intro r hr c hc hnan
  have hall := List.sum_eq_zero_iff.mp h
  have hzero := hall _ (List.mem_map_of_mem _ hr)
  have : c ∈ t.cols.filter (fun c => r c = cellNaN) :=
    List.mem_filter.mpr ⟨hc, by simp [hnan]⟩
  rw [List.length_eq_zero.mp hzero] at this
  exact List.not_mem_nil c this

lemma interpNumeric_id (t : Table)
    (h : ∀ r ∈ t.rows, ∀ c ∈ t.cols, r c ≠ cellNaN) :
    t.interpNumeric = t := by
  unfold Table.interpNumeric
  refine foldl_interpCol_id _ _ ?_
  intro c hc
  have hcc : c ∈ t.cols := (List.mem_filter.mp hc).1
  exact interpCol_id t c hcc (fun r hr => h r hr c hcc)

lemma dropDupsAux_sublist (cols : List Col) :
    ∀ (seen l : List Row), List.Sublist (dropDupsAux cols seen l) l := by
  intro seen l
  induction l generalizing seen with
  | nil => simp [dropDupsAux]
  | cons r rest ih =>
      by_cases h : seen.any (fun s => rowEqOn cols r s)
      · simp only [dropDupsAux, if_pos h]
        exact (ih seen).trans (List.sublist_cons_self r rest)
      · simp only [dropDupsAux, if_neg h]
        exact List.Sublist.cons₂ r (ih (r :: seen))

lemma dropDups_of_dupCount_zero (t : Table) (h : t.dupCount = 0) :
    t.dropDups = t := by
  have hsub := dropDupsAux_sublist t.cols [] t.rows
  have hlen : (dropDupsAux t.cols [] t.rows).length = t.rows.length := by
    have hle := hsub.length_le
    unfold Table.dupCount at h
    omega
  have := hsub.eq_of_length hlen
  unfold Table.dropDups
  rw [this]

/-! ### C4 — order of deduplication and interpolation -/

/-- C4 (amended): the cleaning stage executes interpolation first and
deduplication second — for every input table, `clean_data` equals the
guard-free composition "interpolate the numeric columns, then drop
duplicate rows".  (The claim's order, deduplication before interpolation,
is not the executed one, see `c4_counterexample`.) -/
theorem c4_interpolate_then_dedup (df : Table) :
    clean_data df = (df.interpNumeric).dropDups := by
  unfold clean_data
  by_cases hm : 0 < df.countMissing
  · rw [if_pos hm]
    by_cases hdup : 0 < (df.interpNumeric).dupCount
    · rw [if_pos hdup]
    · rw [if_neg hdup]
      exact (dropDups_of_dupCount_zero _ (by omega)).symm
  · rw [if_neg hm]
    have hid : df.interpNumeric = df :=
      interpNumeric_id df (countMissing_zero df (by omega))
    rw [hid]
    by_cases hdup : 0 < df.dupCount
    · rw [if_pos hdup]
    · rw [if_neg hdup]
      exact (dropDups_of_dupCount_zero _ (by omega)).symm

/-- One numeric column, rows `0`, `0`, missing. -/
def exT4 : Table :=
  { cols := [.productie]
    rows := [mkRow [(.productie, nq 0)], mkRow [(.productie, nq 0)],
             mkRow []] }

/-- C4 counterexample: on `exT4` the executed pipeline (interpolate, then
deduplicate) keeps one row, while the claimed order (deduplicate, then
interpolate) keeps two — the claimed order is not the executed one. -/
theorem c4_counterexample :
    (clean_data exT4).rows.length = 1 ∧
    (clean_data_dedupFirst exT4).rows.length = 2 := by decide

/-! ### Reading columns through the interpolation fold -/

lemma zip_update_read_ne {c c' : Col} (hcc : c' ≠ c) :
    ∀ (l : List Row) (v : List Cell), v.length = l.length →
      ((l.zip v).map (fun rv => updRow rv.1 c rv.2)).map (fun r => r c')
        = l.map (fun r => r c') := by
  intro l
  induction l with
  | nil => intro v _; simp
  | cons r rest ih =>
      intro v hv
      cases v with
      | nil => simp at hv
      | cons b w =>
          simp only [List.zip_cons_cons, List.map_cons]
          rw [ih w (by simpa using hv)]
          simp [updRow, hcc]

lemma zip_update_read_eq (c : Col) :
    ∀ (l : List Row) (v : List Cell), v.length = l.length →
      ((l.zip v).map (fun rv => updRow rv.1 c rv.2)).map (fun r => r c)
        = v := by
  intro l
  induction l with
  | nil =>
      intro v hv
      simp only [List.length_nil] at hv
      rw [List.length_eq_zero.mp hv]
      simp
  | cons r rest ih =>
      intro v hv
      cases v with
      | nil => simp at hv
      | cons b w =>
          simp only [List.zip_cons_cons, List.map_cons]
          rw [ih w (by simpa using hv)]
          simp [updRow]

lemma interpCol_read_ne (t : Table) (c c' : Col) (hcc : c' ≠ c) :
    (t.interpCol c).rows.map (fun r => r c') = t.rows.map (fun r => r c') := by
  have : (t.interpCol c).rows =
      ((t.rows.zip (interpCells (t.rows.map (fun r => r c)))).map
        (fun rv => updRow rv.1 c rv.2)) := rfl
  rw [this, zip_update_read_ne hcc]
  rw [interpCells_length]
  simp

lemma interpCol_read_eq (t : Table) (c : Col) :
    (t.interpCol c).rows.map (fun r => r c)
      = interpCells (t.rows.map (fun r => r c)) := by
  have : (t.interpCol c).rows =
      ((t.rows.zip (interpCells (t.rows.map (fun r => r c)))).map
        (fun rv => updRow rv.1 c rv.2)) := rfl
  rw [this, zip_update_read_eq]
  rw [interpCells_length]
  simp

lemma foldl_interpCol_read (L : List Col) :
    ∀ (t : Table), L.Nodup → ∀ c' : Col,
      (L.foldl Table.interpCol t).rows.map (fun r => r c') =
        (if c' ∈ L then interpCells (t.rows.map (fun r => r c'))
         else t.rows.map (fun r => r c')) := by
  induction L with
  | nil => intro t _ c'; simp
  | cons a L' ih =>
      intro t hnd c'
      simp only [List.foldl_cons]
      have ha : a ∉ L' := (List.nodup_cons.mp hnd).1
      rw [ih (t.interpCol a) (List.nodup_cons.mp hnd).2 c']
      by_cases hca : c' = a
      · subst hca
        rw [if_neg ha, if_pos (by simp)]
        exact interpCol_read_eq t c'
      · by_cases hcl : c' ∈ L'
        · rw [if_pos hcl, if_pos (by simp [hcl])]
          rw [interpCol_read_ne t a c' hca]
        · rw [if_neg hcl, if_neg (by simp [hca, hcl])]
          exact interpCol_read_ne t a c' hca

lemma interpNumeric_read (t : Table) (hnd : t.cols.Nodup) (c : Col)
    (hc : c ∈ numericColsOf t) :
    (t.interpNumeric).rows.map (fun r => r c)
      = interpCells (t.rows.map (fun r => r c)) := by
  have hndL : (numericColsOf t).Nodup := by
    unfold numericColsOf
    exact hnd.filter _
  unfold Table.interpNumeric
  rw [foldl_interpCol_read (numericColsOf t) t hndL c, if_pos hc]

/-! ### What interpolation fills -/

lemma interpGo_getD (orig : List Cell) :
    ∀ (j k : ℕ) (l : List Cell), k < l.length →
      (interpGo orig j l).getD k cellNaN =
        (if l.getD k cellNaN = cellNaN then fillAt orig (j + k)
         else l.getD k cellNaN) := by
  intro j k l
  induction l generalizing j k with
  | nil => intro h; simp at h
  | cons x rest ih =>
      intro hk
      cases k with
      | zero => simp [interpGo]
      | succ k' =>
          simp only [interpGo, List.getD_cons_succ]
          rw [ih (j + 1) k' (by simpa using hk)]
          have harith : j + 1 + k' = j + (k' + 1) := by omega
          rw [harith]

lemma mem_of_getLast_opt {α : Type} :
    ∀ {l : List α} {a : α}, l.getLast? = some a → a ∈ l := by
  intro l
  induction l with
  | nil => intro a h; simp at h
  | cons x xs ih =>
      intro a h
      cases xs with
      | nil =>
          simp only [List.getLast?_singleton, Option.some.injEq] at h
          simp [h]
      | cons y ys =>
          rw [List.getLast?_cons_cons] at h
          exact List.mem_cons_of_mem x (ih h)

lemma mem_of_head_opt {α : Type} {l : List α} {a : α}
    (h : l.head? = some a) : a ∈ l := by
  cases l with
  | nil => simp at h
  | cons x xs =>
      simp only [List.head?_cons, Option.some.injEq] at h
      subst h
      exact List.mem_cons_self _ _

lemma getD_mem {α : Type} :
    ∀ (l : List α) (i : ℕ), i < l.length → ∀ d : α, l.getD i d ∈ l := by
  intro l
  induction l with
  | nil => intro i h; simp at h
  | cons x xs ih =>
      intro i h d
      cases i with
      | zero => simp
      | succ i' =>
          rw [List.getD_cons_succ]
          exact List.mem_cons_of_mem x (ih i' (by simpa using h) d)

lemma findPrev_spec (l : List Cell) (j : ℕ)
    (hex : ∃ i, i < j ∧ l.getD i cellNaN ≠ cellNaN) :
    ∃ i v, findPrev l j = some (i, v) ∧ v ≠ cellNaN ∧
      l.getD i cellNaN = v ∧ i < j := by
  obtain ⟨i, hij, hiv⟩ := hex
  have hmem : (i, l.getD i cellNaN) ∈ (List.range j).filterMap
      (fun i => if l.getD i cellNaN ≠ cellNaN then
        some (i, l.getD i cellNaN) else none) :=
    List.mem_filterMap.mpr ⟨i, List.mem_range.mpr hij, by rw [if_pos hiv]⟩
  have hne := List.ne_nil_of_mem hmem
  cases hfl : ((List.range j).filterMap
      (fun i => if l.getD i cellNaN ≠ cellNaN then
        some (i, l.getD i cellNaN) else none)).getLast? with
  | none => exact absurd (List.getLast?_eq_none_iff.mp hfl) hne
  | some z =>
      have hzmem : z ∈ (List.range j).filterMap
          (fun i => if l.getD i cellNaN ≠ cellNaN then
            some (i, l.getD i cellNaN) else none) :=
        mem_of_getLast_opt hfl
      obtain ⟨a, har, haz⟩ := List.mem_filterMap.mp hzmem
      by_cases hav : l.getD a cellNaN ≠ cellNaN
      · rw [if_pos hav] at haz
        injection haz with haz
        refine ⟨a, l.getD a cellNaN, ?_, hav, rfl, List.mem_range.mp har⟩
        rw [show findPrev l j = ((List.range j).filterMap
          (fun i => if l.getD i cellNaN ≠ cellNaN then
            some (i, l.getD i cellNaN) else none)).getLast? from rfl, hfl,
          ← haz]
      · rw [if_neg hav] at haz
        exact absurd haz (by simp)

lemma findNext_spec (l : List Cell) (j k : ℕ) (v : Cell)
    (h : findNext l j = some (k, v)) :
    v ≠ cellNaN ∧ l.getD k cellNaN = v ∧ k < l.length := by
  have hmem : (k, v) ∈ (List.range l.length).filterMap
      (fun k => if j < k ∧ l.getD k cellNaN ≠ cellNaN then
        some (k, l.getD k cellNaN) else none) :=
    mem_of_head_opt h
  obtain ⟨a, har, haz⟩ := List.mem_filterMap.mp hmem
  by_cases hav : j < a ∧ l.getD a cellNaN ≠ cellNaN
  · rw [if_pos hav] at haz
    injection haz with haz
    cases haz
    exact ⟨hav.2, rfl, List.mem_range.mp har⟩
  · rw [if_neg hav] at haz
    exact absurd haz (by simp)

lemma fillAt_ne_nan (l : List Cell)
    (hfin : ∀ x ∈ l, x = cellNaN ∨ ∃ q, x = Cell.num (PF.fin q))
    (j : ℕ)
    (hex : ∃ i, i < j ∧ l.getD i cellNaN ≠ cellNaN) :
    fillAt l j ≠ cellNaN := by
  obtain ⟨i0, v0, hfp, hv0, hgv0, hij⟩ := findPrev_spec l j hex
  have hjl : i0 < l.length := by
    by_contra hge
    rw [List.getD_eq_default _ _ (by omega)] at hgv0
    exact hv0 hgv0.symm
  have hv0fin : ∃ q, v0 = Cell.num (PF.fin q) := by
    have hmem : v0 ∈ l := by
      rw [← hgv0]
      exact getD_mem l i0 hjl cellNaN
    rcases hfin v0 hmem with h | h
    · exact absurd h hv0
    · exact h
  unfold fillAt
  rw [hfp]
  cases hfn : findNext l j with
  | none =>
      simpa using hv0
  | some kv =>
      obtain ⟨k, vk⟩ := kv
      obtain ⟨hvk, hgvk, hkl⟩ := findNext_spec l j k vk hfn
      have hvkfin : ∃ q, vk = Cell.num (PF.fin q) := by
        have hmem : vk ∈ l := by
          rw [← hgvk]
          exact getD_mem l k hkl cellNaN
        rcases hfin vk hmem with h | h
        · exact absurd h hvk
        · exact h
      obtain ⟨qa, rfl⟩ := hv0fin
      obtain ⟨qb, rfl⟩ := hvkfin
      simp [lerpCell, PF.add, PF.sub, PF.neg, PF.mul, cellNaN]

lemma interpCells_fills (l : List Cell)
    (hfin : ∀ x ∈ l, x = cellNaN ∨ ∃ q, x = Cell.num (PF.fin q))
    (j : ℕ) (hj : j < l.length)
    (hex : ∃ i ≤ j, l.getD i cellNaN ≠ cellNaN) :
    (interpCells l).getD j cellNaN ≠ cellNaN := by
  rw [show interpCells l = interpGo l 0 l from rfl, interpGo_getD l 0 j l hj]
  by_cases hx : l.getD j cellNaN = cellNaN
  · rw [if_pos hx]
    obtain ⟨i, hij, hiv⟩ := hex
    have hilt : i < j := by
      rcases lt_or_eq_of_le hij with h | h
      · exact h
      · subst h
        exact absurd hx hiv
    have := fillAt_ne_nan l hfin j ⟨i, hilt, hiv⟩
    simpa using this
  · rw [if_neg hx]
    exact hx

/-! ### C5 — interpolation fills missing cells -/

/-- C5 (amended): after the interpolation step, a numeric cell at row `j`
is non-missing provided the column holds finite-or-missing values and some
row at index `i ≤ j` held a non-missing value — interior gaps are filled
linearly and trailing gaps are padded with the last valid value.  (As
stated, the claim fails: a missing value with no valid predecessor — a
leading gap — remains NaN, see `c5_counterexample`.) -/
theorem c5_interpolation_fills (t : Table) (hnd : t.cols.Nodup)
    (c : Col) (hc : c ∈ numericColsOf t)
    (hfin : ∀ r ∈ t.rows, r c = cellNaN ∨ ∃ q, r c = Cell.num (PF.fin q))
    (j : ℕ) (hj : j < t.rows.length)
    (hex : ∃ i ≤ j, ∃ r, t.rows.get? i = some r ∧ r c ≠ cellNaN) :
    ((t.interpNumeric).rows.map (fun r => r c)).getD j cellNaN ≠ cellNaN := by
  rw [interpNumeric_read t hnd c hc]
  refine interpCells_fills _ ?_ j (by simpa using hj) ?_
  · intro x hx
    obtain ⟨r, hr, rfl⟩ := List.mem_map.mp hx
    exact hfin r hr
  · obtain ⟨i, hij, r, hir, hrv⟩ := hex
    refine ⟨i, hij, ?_⟩
    rw [List.get?_eq_getElem?] at hir
    rw [List.getD_eq_getElem?_getD, List.getElem?_map, hir]
    simpa using hrv

/-- One numeric column, rows `2`, missing — the trailing gap is padded. -/
def exT5W : Table :=
  { cols := [.productie]
    rows := [mkRow [(.productie, nq 2)], mkRow []] }

/-- C5 witness: on `exT5W` the interpolated column is non-missing at the
trailing row, whose input value was missing. -/
theorem c5_interpolation_fills_witness :
    ((exT5W.interpNumeric).rows.map
      (fun r => r .productie)).getD 1 cellNaN ≠ cellNaN :=
  c5_interpolation_fills exT5W (by decide) .productie (by decide)
    (by
      intro r hr
      simp only [exT5W, List.mem_cons, List.not_mem_nil, or_false] at hr
      rcases hr with rfl | rfl
      · exact Or.inr ⟨2, rfl⟩
      · exact Or.inl rfl)
    1 (by decide) ⟨0, by omega, mkRow [(.productie, nq 2)], rfl, by decide⟩

/-- One numeric column, rows missing, `1` — a leading gap. -/
def exT5 : Table :=
  { cols := [.productie]
    rows := [mkRow [], mkRow [(.productie, nq 1)]] }

/-- C5 counterexample: a value missing in the first row stays NaN through
the whole cleaning stage — a not-a-number value remains in a numeric
column of the output. -/
theorem c5_counterexample :
    (clean_data exT5).rows.map (fun r => r .productie) = [cellNaN, nq 1]
    ∧ Col.productie ∈ numericColsOf (clean_data exT5) := by decide

/-! ### C8 — interpolation order and timestamp sorting -/

/-- Two rows in reverse chronological order; the later timestamp has the
value, the earlier one is missing. -/
def exT8 : Table :=
  { cols := [.date_, .consum]
    rows := [mkRow [(.date_, nq 1), (.consum, nq 5)],
             mkRow [(.date_, nq 0)]] }

/-- The same rows in chronological order. -/
def exT8perm : Table :=
  { cols := [.date_, .consum]
    rows := [mkRow [(.date_, nq 0)],
             mkRow [(.date_, nq 1), (.consum, nq 5)]] }

/-- C8 counterexample: `clean_data` interpolates in raw input row order —
on `exT8` it pads the missing value of the chronologically-first row from
the later row, while the spec-mandated variant that sorts by timestamp
first leaves it NaN.  The executed pipeline does not sort by timestamp
before interpolating. -/
theorem c8_counterexample :
    (clean_data exT8).rows.map (fun r => r .consum) = [nq 5, nq 5]
    ∧ (clean_data_sorted exT8).rows.map (fun r => r .consum)
        = [cellNaN, nq 5] := by decide

/-- C8 (amended): interpolation is performed in raw input row order, and
its result depends on that order — permuting the input rows of `exT8`
changes the interpolated value of the row with timestamp `0` from `5`
(trailing pad) to NaN (leading gap). -/
theorem c8_interpolation_order_dependent :
    (clean_data exT8).rows.map (fun r => r .consum) = [nq 5, nq 5]
    ∧ (clean_data exT8perm).rows.map (fun r => r .consum) = [cellNaN, nq 5]
    ∧ exT8perm.cols = exT8.cols
    ∧ List.Perm exT8perm.rows exT8.rows := by
  refine ⟨by decide, by decide, rfl, ?_⟩
  exact List.Perm.swap _ _ _

end EnergyLab
